import Mathlib

/-!
# Sway motion correction (sot-motion-planner)

A shallow embedding of `src/sway-motion-correction.cc`.

Numbers are elements of an arbitrary linearly ordered field `K`, so the
`double` arithmetic of the source is read as exact arithmetic: the definitions
evaluate on `ℚ` and the analytic statements are made on `ℝ`.  The literals
`0.05`, `0.00001`, `0.005`, `0.6` and `0.1` are the fractions `5 / 100`,
`1 / 100000`, `5 / 1000`, `6 / 10` and `1 / 10`.  The saturation is given a
second time with a rounding after every operation (`velocitySaturationFl`),
and `fl64` is the rounding of binary64, for the statements on which rounding
decides.

The entity is a record of its data members; each member function takes the
record and returns the new record next to its result.  The input signals are
functions of the time `t`, as in the source (`cMo_ (t)`, `Jcom_ (t)`, ...).
A call that the library leaves by an exception (the size check of
`operator+=`) returns the record as the call left it and no result (`none`).
-/

/-! ## Library types used by the entity -/

/-- A 4×4 matrix, the storage of `vpHomogeneousMatrix` and of
`sot::MatrixHomogeneous`. -/
abbrev Mat4 (K : Type) := Matrix (Fin 4) (Fin 4) K

/-- A matrix of run-time size (`ml::Matrix`). -/
structure MlMatrix (K : Type) where
  nbRows : ℕ
  nbCols : ℕ
  elem : ℕ → ℕ → K

/-- The two feature objects owned by the entity; the servo task stores
pointers to them. -/
inductive Feature where
  | FT
  | FThU
  deriving DecidableEq, Repr

/-- The part of `vpServo` the entity reads and writes: the list of registered
features, the gain, and the public members `error` and `L`. -/
structure VpServo (K : Type) where
  featureList : List Feature
  lambda : K
  error : List K
  L : List (Fin 6 → K)

/-- Operations of the ViSP library whose code is not part of this repository
and that are not determined by the specification: they are parameters of the
model.  `thetaU` is the axis-angle vector of a rotation matrix,
`interactionFT` and `interactionFThU` are the interaction matrices of the two
features, and `pseudoInverse` returns the six rows of the pseudo-inverse of a
stacked interaction matrix. -/
structure Visp (K : Type) where
  thetaU : Matrix (Fin 3) (Fin 3) K → Fin 3 → K
  interactionFT : Mat4 K → Fin 3 → Fin 6 → K
  interactionFThU : (Fin 3 → K) → Fin 3 → Fin 6 → K
  pseudoInverse : List (Fin 6 → K) → Fin 6 → List K

/-- The input signals of the entity, each a function of the time. -/
structure Signals (K : Type) where
  inputPgVelocity_ : Int → List K
  cMo_ : Int → Mat4 K
  wMwaist_ : Int → Mat4 K
  wMcamera_ : Int → Mat4 K
  Jcom_ : Int → MlMatrix K
  qdot_ : Int → List K

/-- The data members of the class `SwayMotionCorrection`. -/
structure SwayMotionCorrection (K : Type) where
  initialized_ : Bool
  lambda_ : K
  vmax_ : Fin 3 → K
  cdMo_ : Mat4 K
  cdMc_ : Mat4 K
  FT_ : Mat4 K
  FThU_ : Fin 3 → K
  task_ : VpServo K
  minThreshold_ : K
  E_ : Fin 6 → K
  integralLbk_ : Fin 6 → K

namespace SwayMotionCorrection

variable {K : Type} [LinearOrderedField K]

/-- The integration step `static const double STEP = 0.005`. -/
def STEP : K := 5 / 1000

/-- The function `convert`: an entry by entry copy of the 4×4 matrix (both
overloads of the source are this loop). -/
def convert (src : Mat4 K) : Mat4 K := fun i j => src i j

/-- The rotation block of a homogeneous matrix. -/
def rotation (M : Mat4 K) : Matrix (Fin 3) (Fin 3) K :=
  fun i j => M (Fin.castSucc i) (Fin.castSucc j)

/-- The translation column of a homogeneous matrix. -/
def translation (M : Mat4 K) : Fin 3 → K := fun i => M (Fin.castSucc i) 3

/-- Modelled from the spec: `sot::MatrixHomogeneous::inverse`, the inverse of a
pose (section 4.3, "poseWorldToBase⁻¹"): the rotation block is transposed, the
translation becomes `-(Rᵀ t)` and the last row is `0 0 0 1`. -/
def inverse (M : Mat4 K) : Mat4 K := fun i j =>
  if i = 3 then (if j = 3 then 1 else 0)
  else if j = 3 then -(M 0 i * M 0 3 + M 1 i * M 1 3 + M 2 i * M 2 3)
  else M j i

/-- The cross-product matrix of a 3-vector. -/
def skew (u : Fin 3 → K) : Matrix (Fin 3) (Fin 3) K :=
  !![0, -u 2, u 1; u 2, 0, -u 0; -u 1, u 0, 0]

/-- Modelled from the spec: the constructor `vpVelocityTwistMatrix (M)`, the
velocity-twist transform of a pose (section 4.3, "adjoint of the relative
pose"): the blocks are `R`, `[t]× R`, `0` and `R`. -/
def vpVelocityTwistMatrix (M : Mat4 K) : Matrix (Fin 6) (Fin 6) K :=
  Matrix.reindex finSumFinEquiv finSumFinEquiv
    (Matrix.fromBlocks (rotation M) (skew (translation M) * rotation M) 0 (rotation M))

/-- Modelled from the spec: `vpColVector::infinityNorm`, the maximum absolute
value of the components (section 4.5), computed as ViSP does by a running
maximum that starts at `0`. -/
def infinityNorm (v : List K) : K :=
  v.foldl (fun norm x => if |x| > norm then |x| else norm) 0

/-- The scalar product of two coefficient lists. -/
def dot (a b : List K) : K := (List.zipWith (fun x y => x * y) a b).sum

/-- The product `Jcom_ (t) * qdot_ (t)` of a run-time sized matrix and a vector:
one component per row of the matrix. -/
def mlMultiply (J : MlMatrix K) (q : List K) : List K :=
  (List.range J.nbRows).map
    (fun i => ((List.range J.nbCols).map (fun j => J.elem i j * q.getD j 0)).sum)

/-- The product `task_.L * bk` of the stacked interaction matrix and a
6-vector: one component per row of `L`. -/
def mulL (L : List (Fin 6 → K)) (bk : Fin 6 → K) : List K :=
  L.map (fun row => Finset.univ.sum (fun j => row j * bk j))

/-- The three rows of a 3×6 block as a list. -/
def rows3 (B : Fin 3 → Fin 6 → K) : List (Fin 6 → K) := [B 0, B 1, B 2]

/-- The three components of a 3-vector as a list. -/
def comps3 (u : Fin 3 → K) : List K := [u 0, u 1, u 2]

/-- `vpServo::addFeature (s)`: the pointer to the feature is appended to the
feature list of the task. -/
def addFeature (task : VpServo K) (f : Feature) : VpServo K :=
  { task with featureList := task.featureList ++ [f] }

/-- The current value of a registered feature: the translation of the pose
`FT_` was built from, and the theta-U vector held by `FThU_`.  The desired
features are the zero features `addFeature` creates, so this value is also the
feature's error. -/
def featureError (FT : Mat4 K) (FThU : Fin 3 → K) : Feature → List K
  | Feature.FT => comps3 (translation FT)
  | Feature.FThU => comps3 FThU

/-- The interaction matrix of a registered feature. -/
def featureInteraction (V : Visp K) (FT : Mat4 K) (FThU : Fin 3 → K) :
    Feature → List (Fin 6 → K)
  | Feature.FT => rows3 (V.interactionFT FT)
  | Feature.FThU => rows3 (V.interactionFThU FThU)

/-- Modelled from the spec: `vpServo::computeControlLaw` (section 4.1).  The
task stacks the errors and the interaction matrices of its registered
features into `error` and `L`, and returns `-λ · L⁺ · error`. -/
def computeControlLaw (V : Visp K) (FT : Mat4 K) (FThU : Fin 3 → K) (task : VpServo K) :
    VpServo K × (Fin 6 → K) :=
  let L := task.featureList.flatMap (featureInteraction V FT FThU)
  let error := task.featureList.flatMap (featureError FT FThU)
  ({ task with error := error, L := L },
   fun j => -task.lambda * dot (V.pseudoInverse L j) error)

/-! ## The saturation -/

/-- `std::min (a, b)`: `b` when `b < a`, otherwise `a`. -/
def stdMin (a b : K) : K := if b < a then b else a

/-- The local `dv (0.05 * vmax_)`. -/
def dv (vmax : Fin 3 → K) (i : Fin 3) : K := 5 / 100 * vmax i

/-- The local `Vinf = vmax_ - dv`. -/
def Vinf (vmax : Fin 3 → K) (i : Fin 3) : K := vmax i - dv vmax i

/-- The local `Vsup = vmax_ + dv`. -/
def Vsup (vmax : Fin 3 → K) (i : Fin 3) : K := vmax i + dv vmax i

/-- The local `RawVel3ddl`: components 0, 1 and 5 of the input. -/
def RawVel3ddl (velocity : Fin 6 → K) : Fin 3 → K :=
  ![velocity 0, velocity 1, velocity 5]

/-- The local `newfac` of the loop body, for a nonzero denominator. -/
def newfac (vmax : Fin 3 → K) (i : Fin 3) (absRawVel : K) : K :=
  1 / (2 * dv vmax i * absRawVel) *
    ((absRawVel - Vinf vmax i) * vmax i + (Vsup vmax i - absRawVel) * Vinf vmax i)

/-- One pass of the loop `for (int i = 0; i < 3; ++i)` of `velocitySaturation`:
the value of `fac` after the body has run for axis `i`.

When the denominator `2 * dv[i] * absRawVel` is zero, the `double` quotient is
infinite, `newfac` is infinite or not a number, and `std::min (fabs (fac),
fabs (newfac))` returns its first argument: that branch returns `|fac|`. -/
def satStep (vmax raw : Fin 3 → K) (fac : K) (i : Fin 3) : K :=
  let absRawVel := |raw i|
  let fac1 := stdMin |fac| (vmax i / (absRawVel + 1 / 100000))
  if Vinf vmax i ≤ absRawVel ∧ absRawVel ≤ Vsup vmax i then
    if 2 * dv vmax i * absRawVel = 0 then |fac1|
    else stdMin |fac1| |newfac vmax i absRawVel|
  else fac1

/-- The value of `fac` when the loop of `velocitySaturation` is over: it starts
at `1` and the body runs for the axes 0, 1, 2 in this order. -/
def satFac (vmax raw : Fin 3 → K) : K := List.foldl (satStep vmax raw) 1 [0, 1, 2]

/-- `SwayMotionCorrection::velocitySaturation`, with the member `vmax_` as first
argument: every component of `RawVel3ddl` is multiplied by the final `fac`. -/
def velocitySaturation (vmax : Fin 3 → K) (velocity : Fin 6 → K) : Fin 3 → K :=
  fun i => RawVel3ddl velocity i * satFac vmax (RawVel3ddl velocity)

/-! ## The entity -/

/-- The constructor.  `vmax_ (3)`, `E_ (6)` and `integralLbk_ (6)` are created
filled with zeros; the loop `for (i = 0; i < vmax_.getCols (); ++i)` runs once
(a column vector has one column) and writes `vmax_[0] = 0`.  The poses start
as the identity and the task has no feature. -/
def ctor : SwayMotionCorrection K :=
  { initialized_ := false
    lambda_ := 6 / 10
    vmax_ := Function.update (fun _ => 0) 0 0
    cdMo_ := 1
    cdMc_ := 1
    FT_ := 1
    FThU_ := fun _ => 0
    task_ := { featureList := [], lambda := 6 / 10, error := [], L := [] }
    minThreshold_ := 1 / 10
    E_ := fun _ => 0
    integralLbk_ := fun _ => 0 }

/-- `SwayMotionCorrection::setMaximumVelocity`. -/
def setMaximumVelocity (s : SwayMotionCorrection K) (dx dy dtheta : K) :
    SwayMotionCorrection K :=
  { s with vmax_ := ![dx, dy, dtheta] }

/-- `SwayMotionCorrection::initialize` (the name is a keyword of Lean, hence the
underscore). -/
def initialize_ (V : Visp K) (sig : Signals K) (s : SwayMotionCorrection K)
    (cdMo : Mat4 K) (t : Int) : SwayMotionCorrection K :=
  if s.initialized_ then s
  else
    let cdMc := cdMo * convert (inverse (sig.cMo_ t))
    { s with
      E_ := fun _ => 0
      cdMo_ := cdMo
      cdMc_ := cdMc
      FT_ := cdMc
      FThU_ := V.thetaU (rotation cdMc)
      task_ := addFeature (addFeature s.task_ Feature.FT) Feature.FThU
      initialized_ := true }

/-- `SwayMotionCorrection::shouldStop`: the infinity norm of the components 0,
2 and 4 of `task_.error` is compared with `minThreshold_`. -/
def shouldStop (s : SwayMotionCorrection K) : Bool :=
  decide (infinityNorm
    [s.task_.error.getD 0 0, s.task_.error.getD 2 0, s.task_.error.getD 4 0]
    < s.minThreshold_)

/-- `SwayMotionCorrection::stop`. -/
def stop (s : SwayMotionCorrection K) : SwayMotionCorrection K :=
  { s with initialized_ := false }

/-- `SwayMotionCorrection::fromCameraToWaistTwist`. -/
def fromCameraToWaistTwist (sig : Signals K) (t : Int) : Matrix (Fin 6) (Fin 6) K :=
  vpVelocityTwistMatrix (convert (inverse (sig.wMwaist_ t) * sig.wMcamera_ t))

/-- The local `bk` of `updateVelocity`. -/
def bkOf (inputComVel dcom : Fin 3 → K) : Fin 6 → K :=
  ![inputComVel 0 - dcom 0, inputComVel 1 - dcom 1, 0, 0, 0, inputComVel 2 - dcom 2]

/-- `v.setZero ()` on a vector of run-time size. -/
def setZero (v : List K) : List K := v.map (fun _ => 0)

/-- The local `dcom` of `updateVelocity`: the first three components of
`Jcom_ (t) * qdot_ (t)`. -/
def dcom (sig : Signals K) (t : Int) : Fin 3 → K :=
  fun i => (mlMultiply (sig.Jcom_ t) (sig.qdot_ t)).getD i.val 0

/-- The local `inputComVel` of `updateVelocity`: the first three components of
`inputPgVelocity_ (t)`. -/
def inputComVel (sig : Signals K) (t : Int) : Fin 3 → K :=
  fun i => (sig.inputPgVelocity_ t).getD i.val 0

/-- The local `bk` of `updateVelocity`. -/
def bk (sig : Signals K) (t : Int) : Fin 6 → K :=
  bkOf (inputComVel sig t) (dcom sig t)

/-- The value given to `cdMc_` by `cdMc_ = cdMo_ * convert(cMo_ (t).inverse ())`. -/
def cdMcOf (sig : Signals K) (s : SwayMotionCorrection K) (t : Int) : Mat4 K :=
  s.cdMo_ * convert (inverse (sig.cMo_ t))

/-- The call `task_.computeControlLaw ()` of `updateVelocity`, made after both
features are rebuilt from the new `cdMc_`: the task as the call leaves it, and
the local `cVelocity_`. -/
def controlLaw (V : Visp K) (sig : Signals K) (s : SwayMotionCorrection K) (t : Int) :
    VpServo K × (Fin 6 → K) :=
  computeControlLaw V (cdMcOf sig s t) (V.thetaU (rotation (cdMcOf sig s t))) s.task_

/-- The record when `updateVelocity` reaches the correction (after lines 331 to
337 of the source): `cdMc_`, both features and the task are written. -/
def afterControlLaw (V : Visp K) (sig : Signals K) (s : SwayMotionCorrection K)
    (t : Int) : SwayMotionCorrection K :=
  { s with
    cdMc_ := cdMcOf sig s t
    FT_ := cdMcOf sig s t
    FThU_ := V.thetaU (rotation (cdMcOf sig s t))
    task_ := (controlLaw V sig s t).1 }

/-- The local `swayMotionCorrection = task_.L * bk` of `updateVelocity`. -/
def swayMotionCorrection (V : Visp K) (sig : Signals K) (s : SwayMotionCorrection K)
    (t : Int) : List K :=
  mulL (controlLaw V sig s t).1.L (bk sig t)

/-- The local `velWaistVispBounded` of `updateVelocity`: the camera velocity
carried to the waist frame and saturated. -/
def velWaistVispBounded (V : Visp K) (sig : Signals K) (s : SwayMotionCorrection K)
    (t : Int) : Fin 3 → K :=
  velocitySaturation s.vmax_
    (Matrix.mulVec (fromCameraToWaistTwist sig t) (controlLaw V sig s t).2)

/-- The product `v * x` of a vector of run-time size and a scalar. -/
def scale (v : List K) (x : K) : List K := v.map (fun c => c * x)

/-- The library's `operator+=` on a 6-vector: it compares the sizes of both
sides and throws an exception when they differ (`none`); otherwise the
components are added. -/
def addAssign (acc : Fin 6 → K) (w : List K) : Option (Fin 6 → K) :=
  if w.length = 6 then some (fun i => acc i + w.getD i.val 0) else none

/-- The body of `updateVelocity` between the two guards and the stop test
(lines 331 to 367 of the source): the record the body leaves and, when no
exception is thrown, the local `velWaistVispBounded`.

`integralLbk_ += swayMotionCorrection * STEP` throws when `task_.L * bk` does
not have 6 components, that is when the task does not hold exactly two
features; the call is then left with `cdMc_`, the features and the task
already written, and the result is `none`. -/
def controlCycle (V : Visp K) (sig : Signals K) (s : SwayMotionCorrection K) (t : Int) :
    SwayMotionCorrection K × Option (Fin 3 → K) :=
  match addAssign s.integralLbk_ (scale (swayMotionCorrection V sig s t) STEP) with
  | none => (afterControlLaw V sig s t, none)
  | some integralLbk =>
    ({ afterControlLaw V sig s t with
        integralLbk_ := integralLbk
        E_ := fun i => s.E_ i + integralLbk i * STEP },
     some (velWaistVispBounded V sig s t))

/-- `SwayMotionCorrection::updateVelocity`: the record the call leaves and the
returned `velWaist`, or `none` when the call is left by an exception of the
library. -/
def updateVelocity (V : Visp K) (sig : Signals K) (s : SwayMotionCorrection K)
    (velWaist : List K) (t : Int) : SwayMotionCorrection K × Option (List K) :=
  let velWaist := if velWaist.length ≠ 3 then List.replicate 3 0 else velWaist
  if !s.initialized_ then (s, some (setZero velWaist))
  else if (sig.Jcom_ t).nbRows ≠ 3 ∨ (sig.Jcom_ t).nbCols ≠ (sig.qdot_ t).length then
    (s, some (setZero velWaist))
  else
    match controlCycle V sig s t with
    | (s1, none) => (s1, none)
    | (s1, some bounded) =>
      if shouldStop s1 then (stop s1, some [bounded 0, bounded 1, bounded 2])
      else (s1, some [bounded 0, bounded 1, bounded 2])

end SwayMotionCorrection

/-! ## Sample inputs

Concrete library operations and signals over `ℚ`, on which the model is
evaluated. -/

namespace SwayMotionCorrection

/-- Sample library operations: the antisymmetric part of the rotation for
`thetaU` (zero at the identity, as the axis-angle vector is), unit blocks for
the interaction matrices, the transpose for the pseudo-inverse. -/
def sampleVisp : Visp ℚ :=
  { thetaU := fun R => ![(R 2 1 - R 1 2) / 2, (R 0 2 - R 2 0) / 2, (R 1 0 - R 0 1) / 2]
    interactionFT := fun _ i j => if j.val = i.val then 1 else 0
    interactionFThU := fun _ i j => if j.val = i.val + 3 then 1 else 0
    pseudoInverse := fun L j => L.map (fun row => row j) }

/-- Sample signals, constant in time: identity poses, a zero 3×2 Jacobian, zero
joint velocity and zero reference velocity. -/
def sampleSignals : Signals ℚ :=
  { inputPgVelocity_ := fun _ => [0, 0, 0]
    cMo_ := fun _ => 1
    wMwaist_ := fun _ => 1
    wMcamera_ := fun _ => 1
    Jcom_ := fun _ => { nbRows := 3, nbCols := 2, elem := fun _ _ => 0 }
    qdot_ := fun _ => [0, 0] }

/-- Sample signals whose Jacobian has four rows. -/
def badShapeSignals : Signals ℚ :=
  { sampleSignals with Jcom_ := fun _ => { nbRows := 4, nbCols := 2, elem := fun _ _ => 0 } }

/-- The sample entity after `setMaximumVelocity (0.1, 0.1, 0.1)` and
`initialize` with the identity as desired pose, at time 0. -/
def sampleTracking : SwayMotionCorrection ℚ :=
  initialize_ sampleVisp sampleSignals
    (setMaximumVelocity ctor (1 / 10) (1 / 10) (1 / 10)) 1 0

end SwayMotionCorrection

/-! ## More sample inputs -/

namespace SwayMotionCorrection

/-- Sample signals with a disturbance: identity poses, a 3×2 Jacobian of ones,
joint velocity `(2, 3)`, hence a CoM velocity `(5, 5, 5)`, and the reference
velocity `(6, 5, 5)`. -/
def pushSignals : Signals ℚ :=
  { inputPgVelocity_ := fun _ => [6, 5, 5]
    cMo_ := fun _ => 1
    wMwaist_ := fun _ => 1
    wMcamera_ := fun _ => 1
    Jcom_ := fun _ => { nbRows := 3, nbCols := 2, elem := fun _ _ => 1 }
    qdot_ := fun _ => [2, 3] }

/-- The sample tracking entity with other values in the two accumulators. -/
def sampleDrifted : SwayMotionCorrection ℚ :=
  { sampleTracking with integralLbk_ := fun _ => 3, E_ := fun _ => 5 }

/-- An episode: the sample tracking entity runs one cycle on `pushSignals` at
time 1, is stopped, and `initialize` is called again at time 2. -/
def sampleSecondEpisode : SwayMotionCorrection ℚ :=
  initialize_ sampleVisp pushSignals
    (stop (updateVelocity sampleVisp pushSignals sampleTracking [0, 0, 0] 1).1) 1 2

end SwayMotionCorrection

/-! ## The saturation in double arithmetic -/

namespace SwayMotionCorrection

variable {K : Type} [LinearOrderedField K]

/-- The local `dv (0.05 * vmax_)` in double arithmetic: the literal and the
product are rounded by `fl`. -/
def dvFl (fl : K → K) (vmax : Fin 3 → K) (i : Fin 3) : K := fl (fl (5 / 100) * vmax i)

/-- The local `Vinf = vmax_ - dv` in double arithmetic. -/
def VinfFl (fl : K → K) (vmax : Fin 3 → K) (i : Fin 3) : K := fl (vmax i - dvFl fl vmax i)

/-- The local `Vsup = vmax_ + dv` in double arithmetic. -/
def VsupFl (fl : K → K) (vmax : Fin 3 → K) (i : Fin 3) : K := fl (vmax i + dvFl fl vmax i)

/-- The denominator `2 * dv[i] * absRawVel` in double arithmetic. -/
def denomFl (fl : K → K) (vmax : Fin 3 → K) (i : Fin 3) (absRawVel : K) : K :=
  fl (fl (2 * dvFl fl vmax i) * absRawVel)

/-- The local `newfac` in double arithmetic, each operation rounded in the
order the expression is evaluated. -/
def newfacFl (fl : K → K) (vmax : Fin 3 → K) (i : Fin 3) (absRawVel : K) : K :=
  fl (fl (1 / denomFl fl vmax i absRawVel) *
    fl (fl (fl (absRawVel - VinfFl fl vmax i) * vmax i) +
      fl (fl (VsupFl fl vmax i - absRawVel) * VinfFl fl vmax i)))

/-- The hard-limit quotient `vmax_[i] / (absRawVel + 0.00001)` in double
arithmetic. -/
def hardFl (fl : K → K) (vmax : Fin 3 → K) (i : Fin 3) (absRawVel : K) : K :=
  fl (vmax i / fl (absRawVel + fl (1 / 100000)))

/-- One pass of the loop of `velocitySaturation` in double arithmetic: `fl` is
the rounding applied to the result of every `+`, `-`, `*`, `/` and to every
literal; `std::fabs`, `std::min` and the comparisons are exact.  With the
identity for `fl` this is `satStep`. -/
def satStepFl (fl : K → K) (vmax raw : Fin 3 → K) (fac : K) (i : Fin 3) : K :=
  let absRawVel := |raw i|
  let fac1 := stdMin |fac| (hardFl fl vmax i absRawVel)
  if VinfFl fl vmax i ≤ absRawVel ∧ absRawVel ≤ VsupFl fl vmax i then
    if denomFl fl vmax i absRawVel = 0 then |fac1|
    else stdMin |fac1| |newfacFl fl vmax i absRawVel|
  else fac1

/-- The final `fac` in double arithmetic. -/
def satFacFl (fl : K → K) (vmax raw : Fin 3 → K) : K :=
  List.foldl (satStepFl fl vmax raw) 1 [0, 1, 2]

/-- `SwayMotionCorrection::velocitySaturation` in double arithmetic. -/
def velocitySaturationFl (fl : K → K) (vmax : Fin 3 → K) (velocity : Fin 6 → K) :
    Fin 3 → K :=
  fun i => fl (RawVel3ddl velocity i * satFacFl fl vmax (RawVel3ddl velocity))

end SwayMotionCorrection

/-! ## Rounding to binary64 -/

namespace SwayMotionCorrection

/-- The power `2 ^ e` for an integer exponent. -/
def pow2 (e : Int) : ℚ :=
  if 0 ≤ e then ((2 ^ e.toNat : ℕ) : ℚ) else 1 / ((2 ^ (-e).toNat : ℕ) : ℚ)

/-- The number of halvings that bring `n` below 2, with a bound on the depth. -/
def log2Aux : ℕ → ℕ → ℕ
  | 0, _ => 0
  | fuel + 1, n => if n < 2 then 0 else log2Aux fuel (n / 2) + 1

/-- The integer `e` with `2 ^ e ≤ |x| < 2 ^ (e + 1)`, for `x ≠ 0` whose numerator
and denominator are below `2 ^ 4096`. -/
def ilog2 (x : ℚ) : Int :=
  let e0 : Int := (log2Aux 4096 x.num.natAbs : Int) - (log2Aux 4096 x.den : Int)
  if pow2 e0 ≤ |x| then e0 else e0 - 1

/-- Rounding to the nearest integer, ties to the even one. -/
def roundHalfEven (y : ℚ) : Int :=
  let f := y.floor
  let r := y - f
  if r < 1 / 2 then f else if 1 / 2 < r then f + 1 else if f % 2 = 0 then f else f + 1

/-- Rounding of a rational to the nearest binary64 number, ties to even: 53
significant bits, least exponent `-1022` (subnormal numbers below it).  Results
of magnitude `2 ^ 1024` or more, which are infinite in binary64, are outside
the range where this function describes the format. -/
def fl64 (x : ℚ) : ℚ :=
  if x = 0 then 0
  else
    let e := max (ilog2 x) (-1022)
    (roundHalfEven (x / pow2 (e - 52)) : ℚ) * pow2 (e - 52)

/-- The binary64 number nearest to `1.425`; it is the `Vinf` the code computes
for the limit `1.5`. -/
def edge64 : ℚ := 6417629469002957 / 4503599627370496

/-- The binary64 number just below `edge64`. -/
def belowEdge64 : ℚ := 6417629469002956 / 4503599627370496

end SwayMotionCorrection

/-! ## Reading components -/

namespace SwayMotionCorrection

theorem vec6_five {α : Type} (a b c d e f : α) :
    (![a, b, c, d, e, f] : Fin 6 → α) 5 = f := rfl

theorem RawVel3ddl_zero {α : Type} (velocity : Fin 6 → α) :
    RawVel3ddl velocity 0 = velocity 0 := rfl

theorem RawVel3ddl_one {α : Type} (velocity : Fin 6 → α) :
    RawVel3ddl velocity 1 = velocity 1 := rfl

theorem RawVel3ddl_two {α : Type} (velocity : Fin 6 → α) :
    RawVel3ddl velocity 2 = velocity 5 := rfl

end SwayMotionCorrection

/-! ## Lemmas on the saturation -/

namespace SwayMotionCorrection

variable {K : Type} [LinearOrderedField K]

theorem stdMin_eq_min (a b : K) : stdMin a b = min a b := by
  unfold stdMin
  split_ifs with h
  · exact (min_eq_right h.le).symm
  · exact (min_eq_left (not_lt.mp h)).symm

theorem hardQuotient_nonneg (m a : K) (hm : 0 ≤ m) : 0 ≤ m / (|a| + 1 / 100000) := by
  have h : (0 : K) < |a| + 1 / 100000 := by positivity
  exact div_nonneg hm h.le

theorem satStep_nonneg (vmax raw : Fin 3 → K) (fac : K) (i : Fin 3) (h : 0 ≤ vmax i) :
    0 ≤ satStep vmax raw fac i := by
  have hq := hardQuotient_nonneg (vmax i) (raw i) h
  have h1 : 0 ≤ min |fac| (vmax i / (|raw i| + 1 / 100000)) := le_min (abs_nonneg _) hq
  simp only [satStep, stdMin_eq_min]
  split_ifs
  · exact abs_nonneg _
  · exact le_min (abs_nonneg _) (abs_nonneg _)
  · exact h1

theorem satStep_le_min (vmax raw : Fin 3 → K) (fac : K) (i : Fin 3) (h : 0 ≤ vmax i) :
    satStep vmax raw fac i ≤ min |fac| (vmax i / (|raw i| + 1 / 100000)) := by
  have hq := hardQuotient_nonneg (vmax i) (raw i) h
  have h1 : 0 ≤ min |fac| (vmax i / (|raw i| + 1 / 100000)) := le_min (abs_nonneg _) hq
  simp only [satStep, stdMin_eq_min]
  split_ifs
  · exact (abs_of_nonneg h1).le
  · exact (min_le_left _ _).trans (abs_of_nonneg h1).le
  · exact le_rfl

theorem satFac_eq (vmax raw : Fin 3 → K) :
    satFac vmax raw = satStep vmax raw (satStep vmax raw (satStep vmax raw 1 0) 1) 2 := rfl

theorem satFac_nonneg (vmax raw : Fin 3 → K) (h : ∀ i, 0 ≤ vmax i) : 0 ≤ satFac vmax raw := by
  rw [satFac_eq]
  exact satStep_nonneg _ _ _ _ (h 2)

theorem satFac_le_hard (vmax raw : Fin 3 → K) (h : ∀ i, 0 ≤ vmax i) (i : Fin 3) :
    satFac vmax raw ≤ vmax i / (|raw i| + 1 / 100000) := by
  rw [satFac_eq]
  have n0 := satStep_nonneg vmax raw 1 0 (h 0)
  have n1 := satStep_nonneg vmax raw (satStep vmax raw 1 0) 1 (h 1)
  have l0 := satStep_le_min vmax raw 1 0 (h 0)
  have l1 := satStep_le_min vmax raw (satStep vmax raw 1 0) 1 (h 1)
  have l2 := satStep_le_min vmax raw (satStep vmax raw (satStep vmax raw 1 0) 1) 2 (h 2)
  rw [abs_of_nonneg n0] at l1
  rw [abs_of_nonneg n1] at l2
  fin_cases i
  · exact (l2.trans (min_le_left _ _)).trans ((l1.trans (min_le_left _ _)).trans
      (l0.trans (min_le_right _ _)))
  · exact (l2.trans (min_le_left _ _)).trans (l1.trans (min_le_right _ _))
  · exact l2.trans (min_le_right _ _)

theorem satFac_le_one (vmax raw : Fin 3 → K) (h : ∀ i, 0 ≤ vmax i) : satFac vmax raw ≤ 1 := by
  rw [satFac_eq]
  have n0 := satStep_nonneg vmax raw 1 0 (h 0)
  have n1 := satStep_nonneg vmax raw (satStep vmax raw 1 0) 1 (h 1)
  have l0 := satStep_le_min vmax raw 1 0 (h 0)
  have l1 := satStep_le_min vmax raw (satStep vmax raw 1 0) 1 (h 1)
  have l2 := satStep_le_min vmax raw (satStep vmax raw (satStep vmax raw 1 0) 1) 2 (h 2)
  rw [abs_of_nonneg n0] at l1
  rw [abs_of_nonneg n1] at l2
  rw [abs_one] at l0
  exact (l2.trans (min_le_left _ _)).trans ((l1.trans (min_le_left _ _)).trans
      (l0.trans (min_le_left _ _)))

/-- C2: for limits that are strictly positive on the three axes, every component
of the result of `velocitySaturation` is bounded in absolute value by the limit
of its axis, hence also by the limit plus any positive tolerance. -/
theorem velocitySaturation_bounded (vmax : Fin 3 → K) (velocity : Fin 6 → K)
    (hpos : ∀ i, 0 < vmax i) (i : Fin 3) :
    |velocitySaturation vmax velocity i| ≤ vmax i ∧
      ∀ tol : K, 0 < tol → |velocitySaturation vmax velocity i| ≤ vmax i + tol := by
  have hnn : ∀ j, 0 ≤ vmax j := fun j => (hpos j).le
  have key : |velocitySaturation vmax velocity i| ≤ vmax i := by
    have hF := satFac_nonneg vmax (RawVel3ddl velocity) hnn
    have hH := satFac_le_hard vmax (RawVel3ddl velocity) hnn i
    have hden : (0 : K) < |RawVel3ddl velocity i| + 1 / 100000 := by positivity
    unfold velocitySaturation
    rw [abs_mul, abs_of_nonneg hF]
    calc |RawVel3ddl velocity i| * satFac vmax (RawVel3ddl velocity)
        ≤ |RawVel3ddl velocity i| * (vmax i / (|RawVel3ddl velocity i| + 1 / 100000)) :=
          mul_le_mul_of_nonneg_left hH (abs_nonneg _)
      _ = vmax i * (|RawVel3ddl velocity i| / (|RawVel3ddl velocity i| + 1 / 100000)) := by
          field_simp
          ring
      _ ≤ vmax i * 1 := by
          apply mul_le_mul_of_nonneg_left _ (hnn i)
          rw [div_le_one hden]
          linarith
      _ = vmax i := mul_one _
  exact ⟨key, fun tol htol => by linarith⟩

end SwayMotionCorrection

namespace SwayMotionCorrection

variable {K : Type} [LinearOrderedField K]

/-- C2, at a concrete input: the limits `(1, 2, 3)` are positive and the first
component of the saturated `(5, -7, 0, 0, 0, 9)` is bounded by `1`. -/
theorem velocitySaturation_bounded_witness :
    (∀ i, 0 < (![1, 2, 3] : Fin 3 → ℚ) i) ∧
      |velocitySaturation (![1, 2, 3] : Fin 3 → ℚ) ![5, -7, 0, 0, 0, 9] 0|
        ≤ (![1, 2, 3] : Fin 3 → ℚ) 0 :=
  ⟨by intro i; fin_cases i <;> simp,
   (velocitySaturation_bounded (![1, 2, 3] : Fin 3 → ℚ) ![5, -7, 0, 0, 0, 9]
      (by intro i; fin_cases i <;> simp) 0).1⟩

theorem satStep_one_of_room (vmax raw : Fin 3 → K) (i : Fin 3)
    (hband : |raw i| ≤ Vinf vmax i) (hroom : |raw i| + 1 / 100000 ≤ vmax i) :
    satStep vmax raw 1 i = 1 := by
  have ha : 0 ≤ |raw i| := abs_nonneg _
  have hden : (0 : K) < |raw i| + 1 / 100000 := by positivity
  have hq : 1 ≤ vmax i / (|raw i| + 1 / 100000) := by
    rw [one_le_div hden]
    exact hroom
  have hm : 0 < vmax i := lt_of_lt_of_le hden hroom
  have hfac1 : min (1 : K) (vmax i / (|raw i| + 1 / 100000)) = 1 := min_eq_left hq
  simp only [satStep, stdMin_eq_min, abs_one, hfac1]
  split_ifs with hb hd
  · rfl
  · have hev : |raw i| = Vinf vmax i := le_antisymm hband hb.1
    have hnf : newfac vmax i |raw i| = 1 := by
      unfold newfac
      rw [hev]
      rw [hev] at hd
      have hd2 : 2 * dv vmax i * Vinf vmax i ≠ 0 := hd
      rw [one_div, inv_mul_eq_div, div_eq_one_iff_eq hd2]
      unfold Vsup Vinf
      ring
    rw [hnf, abs_one, min_self]
  · rfl

/-- C3, as the claim states it, fails: with the three limits equal to `0.00001`
and the input `(0.000005, 0, 0, 0, 0, 0)`, every component is below its lower
band, yet the x component of the result is `1 / 300000`, not `1 / 200000`. -/
theorem passthrough_fails_for_small_limits :
    (∀ i, |RawVel3ddl (![1 / 200000, 0, 0, 0, 0, 0] : Fin 6 → ℚ) i|
        ≤ Vinf (![1 / 100000, 1 / 100000, 1 / 100000] : Fin 3 → ℚ) i) ∧
      velocitySaturation (![1 / 100000, 1 / 100000, 1 / 100000] : Fin 3 → ℚ)
        ![1 / 200000, 0, 0, 0, 0, 0] 0 = 1 / 300000 ∧
      velocitySaturation (![1 / 100000, 1 / 100000, 1 / 100000] : Fin 3 → ℚ)
        ![1 / 200000, 0, 0, 0, 0, 0] ≠ RawVel3ddl ![1 / 200000, 0, 0, 0, 0, 0] := by
  have h0 : velocitySaturation (![1 / 100000, 1 / 100000, 1 / 100000] : Fin 3 → ℚ)
      ![1 / 200000, 0, 0, 0, 0, 0] 0 = 1 / 300000 := by
    norm_num [velocitySaturation, satFac, satStep, stdMin, newfac, dv, Vinf, Vsup,
      RawVel3ddl, abs_of_pos, vec6_five]
  refine ⟨?_, h0, ?_⟩
  · intro i
    fin_cases i <;> norm_num [RawVel3ddl, Vinf, dv, abs_of_pos, vec6_five]
  · intro h
    have h1 := congrFun h 0
    rw [h0] at h1
    norm_num [RawVel3ddl] at h1

theorem velocitySaturation_passthrough_exact (vmax : Fin 3 → K) (velocity : Fin 6 → K)
    (hband : ∀ i, |RawVel3ddl velocity i| ≤ Vinf vmax i)
    (hroom : ∀ i, |RawVel3ddl velocity i| + 1 / 100000 ≤ vmax i) :
    satFac vmax (RawVel3ddl velocity) = 1 ∧
      velocitySaturation vmax velocity = RawVel3ddl velocity := by
  have hfac : satFac vmax (RawVel3ddl velocity) = 1 := by
    rw [satFac_eq, satStep_one_of_room _ _ 0 (hband 0) (hroom 0),
      satStep_one_of_room _ _ 1 (hband 1) (hroom 1),
      satStep_one_of_room _ _ 2 (hband 2) (hroom 2)]
  refine ⟨hfac, ?_⟩
  funext i
  simp only [velocitySaturation, hfac, mul_one]

theorem satStep_zero_limit (vmax raw : Fin 3 → K) (fac : K) (i : Fin 3) (h : vmax i = 0) :
    satStep vmax raw fac i = 0 := by
  have hfac1 : min |fac| (vmax i / (|raw i| + 1 / 100000)) = 0 := by
    rw [h, zero_div]
    exact min_eq_right (abs_nonneg _)
  simp only [satStep, stdMin_eq_min, hfac1, abs_zero]
  split_ifs with hb hd
  · rfl
  · exact min_eq_left (abs_nonneg _)
  · rfl

/-- C5: with the limits the constructor leaves in `vmax_`, `velocitySaturation`
returns the zero vector for every input twist. -/
theorem velocitySaturation_default_limits (velocity : Fin 6 → K) :
    (ctor : SwayMotionCorrection K).vmax_ = (fun _ => 0) ∧
      velocitySaturation (ctor : SwayMotionCorrection K).vmax_ velocity = fun _ => 0 := by
  have hv : (ctor : SwayMotionCorrection K).vmax_ = (fun _ => 0) := by
    funext i
    simp [ctor]
  refine ⟨hv, ?_⟩
  funext i
  have h2 : (ctor : SwayMotionCorrection K).vmax_ 2 = 0 := by rw [hv]
  simp only [velocitySaturation, satFac_eq, satStep_zero_limit _ _ _ 2 h2, mul_zero]

end SwayMotionCorrection

namespace SwayMotionCorrection

variable {K : Type} [LinearOrderedField K]

theorem newfac_eq (vmax : Fin 3 → K) (i : Fin 3) (c : K) (hm : vmax i ≠ 0) (hc : c ≠ 0) :
    newfac vmax i c = (20 * c + 19 * vmax i) / (40 * c) := by
  unfold newfac Vsup Vinf dv
  field_simp
  ring

theorem satStep_closed (vmax raw : Fin 3 → K) (fac : K) (i : Fin 3) (hm : 0 < vmax i)
    (h0 : 0 ≤ fac) (h1 : fac ≤ 1) :
    satStep vmax raw fac i =
      min fac (min (vmax i / (|raw i| + 1 / 100000))
        (newfac vmax i (max (Vinf vmax i) (min |raw i| (Vsup vmax i))))) := by
  have hm0 : vmax i ≠ 0 := hm.ne'
  have hden : (0 : K) < |raw i| + 1 / 100000 := by positivity
  have hq := hardQuotient_nonneg (vmax i) (raw i) hm.le
  have hinf : Vinf vmax i = 19 / 20 * vmax i := by unfold Vinf dv; ring
  have hsup : Vsup vmax i = 21 / 20 * vmax i := by unfold Vsup dv; ring
  have hinfpos : 0 < Vinf vmax i := by rw [hinf]; positivity
  have hsuppos : 0 < Vsup vmax i := by rw [hsup]; positivity
  have hle : Vinf vmax i ≤ Vsup vmax i := by rw [hinf, hsup]; linarith
  have hf1 : 0 ≤ min fac (vmax i / (|raw i| + 1 / 100000)) := le_min h0 hq
  simp only [satStep, stdMin_eq_min, abs_of_nonneg h0, abs_of_nonneg hf1]
  split_ifs with hb hd
  · exfalso
    have ha : 0 < |raw i| := lt_of_lt_of_le hinfpos hb.1
    have hdv : 0 < dv vmax i := by unfold dv; positivity
    have : 0 < 2 * dv vmax i * |raw i| := by positivity
    exact this.ne' hd
  · have ha : 0 < |raw i| := lt_of_lt_of_le hinfpos hb.1
    have hclamp : max (Vinf vmax i) (min |raw i| (Vsup vmax i)) = |raw i| := by
      rw [min_eq_left hb.2, max_eq_right hb.1]
    have hnn : 0 ≤ newfac vmax i |raw i| := by
      rw [newfac_eq vmax i _ hm0 ha.ne']
      positivity
    rw [hclamp, abs_of_nonneg hnn, min_assoc]
  · have hcases : |raw i| < Vinf vmax i ∨ Vsup vmax i < |raw i| := by
      by_contra hcon
      push_neg at hcon
      exact hb ⟨hcon.1, hcon.2⟩
    rcases hcases with hlt | hgt
    · have hclamp : max (Vinf vmax i) (min |raw i| (Vsup vmax i)) = Vinf vmax i := by
        rw [min_eq_left (hlt.le.trans hle), max_eq_left hlt.le]
      have hone : newfac vmax i (Vinf vmax i) = 1 := by
        rw [newfac_eq vmax i _ hm0 hinfpos.ne', hinf]
        field_simp
        ring
      rw [hclamp, hone, min_comm (vmax i / (|raw i| + 1 / 100000)) 1, ← min_assoc,
        min_eq_left h1]
    · have hclamp : max (Vinf vmax i) (min |raw i| (Vsup vmax i)) = Vsup vmax i := by
        rw [min_eq_right hgt.le, max_eq_right hle]
      have hval : newfac vmax i (Vsup vmax i) = 20 / 21 := by
        rw [newfac_eq vmax i _ hm0 hsuppos.ne', hsup]
        field_simp
        ring
      have hh : vmax i / (|raw i| + 1 / 100000) ≤ 20 / 21 := by
        rw [div_le_iff₀ hden]
        rw [hsup] at hgt
        linarith
      rw [hclamp, hval, min_eq_left hh]

theorem satStep_le_one (vmax raw : Fin 3 → K) (fac : K) (i : Fin 3) (hm : 0 ≤ vmax i)
    (h1 : |fac| ≤ 1) : satStep vmax raw fac i ≤ 1 :=
  ((satStep_le_min vmax raw fac i hm).trans (min_le_left _ _)).trans h1

end SwayMotionCorrection

namespace SwayMotionCorrection

theorem continuous_hard (m : ℝ) (k : Fin 6) :
    Continuous (fun v : Fin 6 → ℝ => m / (|v k| + 1 / 100000)) := by
  apply Continuous.div continuous_const
  · exact ((continuous_apply k).abs).add continuous_const
  · intro v
    have : (0 : ℝ) < |v k| + 1 / 100000 := by positivity
    exact this.ne'

theorem continuous_band (vmax : Fin 3 → ℝ) (i : Fin 3) (k : Fin 6) (hm : 0 < vmax i) :
    Continuous (fun v : Fin 6 → ℝ =>
      newfac vmax i (max (Vinf vmax i) (min |v k| (Vsup vmax i)))) := by
  have hinfpos : 0 < Vinf vmax i := by
    have : Vinf vmax i = 19 / 20 * vmax i := by unfold Vinf dv; ring
    rw [this]; positivity
  have hdv : 0 < dv vmax i := by unfold dv; positivity
  have hc : Continuous (fun v : Fin 6 → ℝ => max (Vinf vmax i) (min |v k| (Vsup vmax i))) :=
    continuous_const.max (((continuous_apply k).abs).min continuous_const)
  unfold newfac
  apply Continuous.mul
  · apply Continuous.div continuous_const (continuous_const.mul hc)
    intro v
    have : 0 < max (Vinf vmax i) (min |v k| (Vsup vmax i)) :=
      lt_of_lt_of_le hinfpos (le_max_left _ _)
    positivity
  · exact ((hc.sub continuous_const).mul continuous_const).add
      ((continuous_const.sub hc).mul continuous_const)

end SwayMotionCorrection

namespace SwayMotionCorrection

variable {K : Type} [LinearOrderedField K]

theorem satFac_closed (vmax raw : Fin 3 → K) (hpos : ∀ i, 0 < vmax i) :
    satFac vmax raw =
      min (min (min 1
        (min (vmax 0 / (|raw 0| + 1 / 100000))
          (newfac vmax 0 (max (Vinf vmax 0) (min |raw 0| (Vsup vmax 0))))))
        (min (vmax 1 / (|raw 1| + 1 / 100000))
          (newfac vmax 1 (max (Vinf vmax 1) (min |raw 1| (Vsup vmax 1))))))
        (min (vmax 2 / (|raw 2| + 1 / 100000))
          (newfac vmax 2 (max (Vinf vmax 2) (min |raw 2| (Vsup vmax 2))))) := by
  have n0 := satStep_nonneg vmax raw 1 0 (hpos 0).le
  have u0 : satStep vmax raw 1 0 ≤ 1 :=
    satStep_le_one vmax raw 1 0 (hpos 0).le (by rw [abs_one])
  have n1 := satStep_nonneg vmax raw (satStep vmax raw 1 0) 1 (hpos 1).le
  have u1 : satStep vmax raw (satStep vmax raw 1 0) 1 ≤ 1 :=
    satStep_le_one vmax raw _ 1 (hpos 1).le (by rw [abs_of_nonneg n0]; exact u0)
  rw [satFac_eq, satStep_closed vmax raw _ 2 (hpos 2) n1 u1,
    satStep_closed vmax raw _ 1 (hpos 1) n0 u0,
    satStep_closed vmax raw 1 0 (hpos 0) zero_le_one le_rfl]

end SwayMotionCorrection

namespace SwayMotionCorrection

theorem continuous_satFac (vmax : Fin 3 → ℝ) (hpos : ∀ i, 0 < vmax i) :
    Continuous (fun velocity : Fin 6 → ℝ => satFac vmax (RawVel3ddl velocity)) := by
  have hfun : (fun velocity : Fin 6 → ℝ => satFac vmax (RawVel3ddl velocity)) =
      fun velocity : Fin 6 → ℝ =>
        min (min (min 1
          (min (vmax 0 / (|velocity 0| + 1 / 100000))
            (newfac vmax 0 (max (Vinf vmax 0) (min |velocity 0| (Vsup vmax 0))))))
          (min (vmax 1 / (|velocity 1| + 1 / 100000))
            (newfac vmax 1 (max (Vinf vmax 1) (min |velocity 1| (Vsup vmax 1))))))
          (min (vmax 2 / (|velocity 5| + 1 / 100000))
            (newfac vmax 2 (max (Vinf vmax 2) (min |velocity 5| (Vsup vmax 2))))) := by
    funext velocity
    rw [satFac_closed vmax _ hpos, RawVel3ddl_zero, RawVel3ddl_one, RawVel3ddl_two]
  rw [hfun]
  exact ((continuous_const.min
    ((continuous_hard (vmax 0) 0).min (continuous_band vmax 0 0 (hpos 0)))).min
    ((continuous_hard (vmax 1) 1).min (continuous_band vmax 1 1 (hpos 1)))).min
    ((continuous_hard (vmax 2) 5).min (continuous_band vmax 2 5 (hpos 2)))

/-- C4: for limits that are strictly positive on the three axes, the map from
the input twist to the result of `velocitySaturation` is continuous (in exact
real arithmetic), hence continuous at every input, those on the edges of the
band `[Vinf, Vsup]` included. -/
theorem velocitySaturation_continuous (vmax : Fin 3 → ℝ) (hpos : ∀ i, 0 < vmax i) :
    Continuous (fun velocity : Fin 6 → ℝ => velocitySaturation vmax velocity) ∧
      ∀ velocity : Fin 6 → ℝ,
        ContinuousAt (fun w : Fin 6 → ℝ => velocitySaturation vmax w) velocity := by
  have hc : Continuous (fun velocity : Fin 6 → ℝ => velocitySaturation vmax velocity) := by
    apply continuous_pi
    intro i
    have hraw : Continuous (fun velocity : Fin 6 → ℝ => RawVel3ddl velocity i) := by
      fin_cases i
      · exact continuous_apply (0 : Fin 6)
      · exact continuous_apply (1 : Fin 6)
      · exact continuous_apply (5 : Fin 6)
    exact hraw.mul (continuous_satFac vmax hpos)
  exact ⟨hc, fun velocity => hc.continuousAt⟩

/-- C4, at concrete limits: `(1, 2, 3)` are positive, and the saturation with
these limits is continuous. -/
theorem velocitySaturation_continuous_witness :
    (∀ i, 0 < (![1, 2, 3] : Fin 3 → ℝ) i) ∧
      Continuous (fun velocity : Fin 6 → ℝ =>
        velocitySaturation (![1, 2, 3] : Fin 3 → ℝ) velocity) :=
  ⟨by intro i; fin_cases i <;> simp,
   (velocitySaturation_continuous (![1, 2, 3] : Fin 3 → ℝ)
      (by intro i; fin_cases i <;> simp)).1⟩

end SwayMotionCorrection

/-! ## The saturation in double arithmetic -/

namespace SwayMotionCorrection

variable {K : Type} [LinearOrderedField K]

theorem velocitySaturationFl_id (vmax : Fin 3 → K) (velocity : Fin 6 → K) :
    velocitySaturationFl (fun x => x) vmax velocity = velocitySaturation vmax velocity := rfl

theorem satStepFl_one (fl : K → K) (vmax raw : Fin 3 → K) (i : Fin 3)
    (hbelow : |raw i| < VinfFl fl vmax i) (hquot : 1 ≤ hardFl fl vmax i |raw i|) :
    satStepFl fl vmax raw 1 i = 1 := by
  have hfac1 : min (1 : K) (hardFl fl vmax i |raw i|) = 1 := min_eq_left hquot
  have hband : ¬ (VinfFl fl vmax i ≤ |raw i| ∧ |raw i| ≤ VsupFl fl vmax i) :=
    fun hb => absurd hb.1 (not_le.mpr hbelow)
  simp only [satStepFl, stdMin_eq_min, abs_one, hfac1, if_neg hband]

/-- C3, amended: for every rounding `fl` of the arithmetic, when the three input
components are numbers of the format (`fl` leaves them unchanged), each lies
strictly below the lower band `Vinf[i]` the code computes and the hard-limit
quotient the code computes is at least 1, the final `fac` is exactly `1` and
`velocitySaturation` returns the components 0, 1, 5 of its input unchanged. -/
theorem velocitySaturationFl_passthrough (fl : K → K) (vmax : Fin 3 → K)
    (velocity : Fin 6 → K)
    (hrep : ∀ i, fl (RawVel3ddl velocity i) = RawVel3ddl velocity i)
    (hbelow : ∀ i, |RawVel3ddl velocity i| < VinfFl fl vmax i)
    (hquot : ∀ i, 1 ≤ hardFl fl vmax i |RawVel3ddl velocity i|) :
    satFacFl fl vmax (RawVel3ddl velocity) = 1 ∧
      velocitySaturationFl fl vmax velocity = RawVel3ddl velocity := by
  have hfac : satFacFl fl vmax (RawVel3ddl velocity) = 1 := by
    show satStepFl fl vmax _ (satStepFl fl vmax _ (satStepFl fl vmax _ 1 0) 1) 2 = 1
    rw [satStepFl_one fl vmax _ 0 (hbelow 0) (hquot 0),
      satStepFl_one fl vmax _ 1 (hbelow 1) (hquot 1),
      satStepFl_one fl vmax _ 2 (hbelow 2) (hquot 2)]
  refine ⟨hfac, ?_⟩
  funext i
  simp only [velocitySaturationFl, hfac, mul_one, hrep]

end SwayMotionCorrection

namespace SwayMotionCorrection

/-- C3, amended, at a concrete input in binary64: limits `(1.5, 1.5, 1.5)` and
the input whose x component is the binary64 number just below the computed
lower band. -/
theorem velocitySaturationFl_passthrough_witness :
    (∀ i, fl64 (RawVel3ddl (![belowEdge64, -1 / 4, 7, 7, 7, 1] : Fin 6 → ℚ) i)
        = RawVel3ddl (![belowEdge64, -1 / 4, 7, 7, 7, 1] : Fin 6 → ℚ) i) ∧
      (∀ i, |RawVel3ddl (![belowEdge64, -1 / 4, 7, 7, 7, 1] : Fin 6 → ℚ) i|
        < VinfFl fl64 ![3 / 2, 3 / 2, 3 / 2] i) ∧
      (∀ i, 1 ≤ hardFl fl64 ![3 / 2, 3 / 2, 3 / 2] i
        |RawVel3ddl (![belowEdge64, -1 / 4, 7, 7, 7, 1] : Fin 6 → ℚ) i|) ∧
      velocitySaturationFl fl64 ![3 / 2, 3 / 2, 3 / 2] ![belowEdge64, -1 / 4, 7, 7, 7, 1]
        = RawVel3ddl ![belowEdge64, -1 / 4, 7, 7, 7, 1] :=
  have h1 : ∀ i, fl64 (RawVel3ddl (![belowEdge64, -1 / 4, 7, 7, 7, 1] : Fin 6 → ℚ) i)
      = RawVel3ddl (![belowEdge64, -1 / 4, 7, 7, 7, 1] : Fin 6 → ℚ) i := by decide!
  have h2 : ∀ i, |RawVel3ddl (![belowEdge64, -1 / 4, 7, 7, 7, 1] : Fin 6 → ℚ) i|
      < VinfFl fl64 ![3 / 2, 3 / 2, 3 / 2] i := by decide!
  have h3 : ∀ i, 1 ≤ hardFl fl64 ![3 / 2, 3 / 2, 3 / 2] i
      |RawVel3ddl (![belowEdge64, -1 / 4, 7, 7, 7, 1] : Fin 6 → ℚ) i| := by decide!
  ⟨h1, h2, h3, (velocitySaturationFl_passthrough fl64 _ _ h1 h2 h3).2⟩

/-- C19, as the claim states it, fails in binary64 arithmetic: with the limits
`(1.5, 1.5, 1.5)` and the two other components zero, the input `belowEdge64`
is returned unchanged, while the larger input `edge64`, for which the band test
holds, is returned four units in the last place below `belowEdge64`. -/
theorem single_axis_monotone_fails_in_binary64 :
    (∀ i, 0 < (![3 / 2, 3 / 2, 3 / 2] : Fin 3 → ℚ) i) ∧
      (∀ i, fl64 ((![3 / 2, 3 / 2, 3 / 2] : Fin 3 → ℚ) i) = (![3 / 2, 3 / 2, 3 / 2] : Fin 3 → ℚ) i) ∧
      fl64 (57 / 40) = edge64 ∧
      fl64 belowEdge64 = belowEdge64 ∧
      VinfFl fl64 ![3 / 2, 3 / 2, 3 / 2] 0 = edge64 ∧
      |belowEdge64| ≤ |edge64| ∧
      velocitySaturationFl fl64 ![3 / 2, 3 / 2, 3 / 2] ![belowEdge64, 0, 0, 0, 0, 0] 0
        = belowEdge64 ∧
      velocitySaturationFl fl64 ![3 / 2, 3 / 2, 3 / 2] ![edge64, 0, 0, 0, 0, 0] 0
        = 6417629469002952 / 4503599627370496 ∧
      |velocitySaturationFl fl64 ![3 / 2, 3 / 2, 3 / 2] ![edge64, 0, 0, 0, 0, 0] 0|
        < |velocitySaturationFl fl64 ![3 / 2, 3 / 2, 3 / 2] ![belowEdge64, 0, 0, 0, 0, 0] 0| := by
  refine ⟨?_, ?_, ?_, ?_, ?_, ?_, ?_, ?_, ?_⟩ <;> decide!

end SwayMotionCorrection

/-! ## The entity: guards and transitions -/

namespace SwayMotionCorrection

variable {K : Type} [LinearOrderedField K]

theorem setZero_resized (velWaist : List K) :
    setZero (if velWaist.length ≠ 3 then List.replicate 3 0 else velWaist) = [0, 0, 0] := by
  split_ifs with h
  · simp [setZero, List.replicate]
  · push_neg at h
    obtain ⟨a, b, c, rfl⟩ := List.length_eq_three.mp h
    simp [setZero]

/-- C1: when `initialized_` is false, `updateVelocity` returns the vector
`(0, 0, 0)` (and leaves the entity as it is), whatever the signals, the
incoming `velWaist` and the time are. -/
theorem updateVelocity_uninitialized (V : Visp K) (sig : Signals K)
    (s : SwayMotionCorrection K) (velWaist : List K) (t : Int)
    (h : s.initialized_ = false) :
    updateVelocity V sig s velWaist t = (s, some [0, 0, 0]) := by
  unfold updateVelocity
  simp only [h, Bool.not_false, if_true]
  rw [setZero_resized]

/-- C1, at a concrete input: the freshly constructed entity is not initialized
and returns `(0, 0, 0)` on the sample signals. -/
theorem updateVelocity_uninitialized_witness :
    (ctor : SwayMotionCorrection ℚ).initialized_ = false ∧
      updateVelocity sampleVisp sampleSignals ctor [4, 5] 7 = (ctor, some [0, 0, 0]) :=
  ⟨rfl, updateVelocity_uninitialized sampleVisp sampleSignals ctor [4, 5] 7 rfl⟩

/-- C6: when the entity is initialized and the Jacobian does not have three
rows, or its number of columns is not the size of the joint velocity,
`updateVelocity` returns `(0, 0, 0)` and every data member keeps its value. -/
theorem updateVelocity_bad_size (V : Visp K) (sig : Signals K)
    (s : SwayMotionCorrection K) (velWaist : List K) (t : Int)
    (h : s.initialized_ = true)
    (hshape : (sig.Jcom_ t).nbRows ≠ 3 ∨ (sig.Jcom_ t).nbCols ≠ (sig.qdot_ t).length) :
    updateVelocity V sig s velWaist t = (s, some [0, 0, 0]) := by
  unfold updateVelocity
  simp only [h, Bool.not_true, if_pos hshape]
  rw [setZero_resized]
  simp

/-- C6, at a concrete input: the sample tracking entity with a Jacobian of
four rows. -/
theorem updateVelocity_bad_size_witness :
    sampleTracking.initialized_ = true ∧
      ((badShapeSignals.Jcom_ 3).nbRows ≠ 3 ∨
        (badShapeSignals.Jcom_ 3).nbCols ≠ (badShapeSignals.qdot_ 3).length) ∧
      updateVelocity sampleVisp badShapeSignals sampleTracking [1, 2, 3] 3
        = (sampleTracking, some [0, 0, 0]) :=
  ⟨rfl, Or.inl (by decide),
   updateVelocity_bad_size sampleVisp badShapeSignals sampleTracking [1, 2, 3] 3 rfl
     (Or.inl (by decide))⟩

/-- C10: when the entity is already initialized, `initialize` changes no data
member, whatever the desired pose and the time are. -/
theorem initialize_noop_when_tracking (V : Visp K) (sig : Signals K)
    (s : SwayMotionCorrection K) (cdMo : Mat4 K) (t : Int) (h : s.initialized_ = true) :
    initialize_ V sig s cdMo t = s := by
  unfold initialize_
  simp only [h, if_true]

/-- C10, at a concrete input: a second `initialize` of the sample tracking
entity, with another desired pose. -/
theorem initialize_noop_when_tracking_witness :
    sampleTracking.initialized_ = true ∧
      initialize_ sampleVisp sampleSignals sampleTracking (fun _ _ => 2) 9 = sampleTracking :=
  ⟨rfl, initialize_noop_when_tracking sampleVisp sampleSignals sampleTracking (fun _ _ => 2) 9 rfl⟩

end SwayMotionCorrection

/-! ## The cycle and the size check of the library -/

namespace SwayMotionCorrection

theorem featureInteraction_length {α : Type} (V : Visp α) (FT : Mat4 α) (FThU : Fin 3 → α)
    (f : Feature) : (featureInteraction V FT FThU f).length = 3 := by
  cases f <;> rfl

theorem featureError_length {α : Type} (FT : Mat4 α) (FThU : Fin 3 → α) (f : Feature) :
    (featureError FT FThU f).length = 3 := by
  cases f <;> rfl

theorem flatMap_length_of_three {α β : Type} (g : α → List β) (hg : ∀ a, (g a).length = 3)
    (l : List α) : (l.flatMap g).length = 3 * l.length := by
  induction l with
  | nil => rfl
  | cons a l ih =>
    rw [List.flatMap_cons, List.length_append, hg, ih, List.length_cons]
    ring

end SwayMotionCorrection

namespace SwayMotionCorrection

variable {K : Type} [LinearOrderedField K]

theorem controlLaw_L_length (V : Visp K) (sig : Signals K) (s : SwayMotionCorrection K)
    (t : Int) : (controlLaw V sig s t).1.L.length = 3 * s.task_.featureList.length :=
  flatMap_length_of_three _ (featureInteraction_length V _ _) _

theorem controlLaw_error_length (V : Visp K) (sig : Signals K) (s : SwayMotionCorrection K)
    (t : Int) : (controlLaw V sig s t).1.error.length = 3 * s.task_.featureList.length :=
  flatMap_length_of_three _ (featureError_length _ _) _

theorem scaled_correction_length (V : Visp K) (sig : Signals K) (s : SwayMotionCorrection K)
    (t : Int) :
    (scale (swayMotionCorrection V sig s t) STEP).length = 3 * s.task_.featureList.length := by
  unfold scale swayMotionCorrection mulL
  rw [List.length_map, List.length_map]
  exact controlLaw_L_length V sig s t

theorem scaled_correction_getD (V : Visp K) (sig : Signals K) (s : SwayMotionCorrection K)
    (t : Int) (n : ℕ) :
    (scale (swayMotionCorrection V sig s t) STEP).getD n 0 =
      (Finset.univ.sum
        (fun j => ((controlLaw V sig s t).1.L.getD n (fun _ => 0)) j * bk sig t j)) * STEP := by
  unfold scale swayMotionCorrection mulL
  rw [List.map_map]
  have h := List.getD_map (l := (controlLaw V sig s t).1.L) (d := fun _ : Fin 6 => (0 : K))
    (n := n) (f := (fun c => c * STEP) ∘ fun row => Finset.univ.sum (fun j => row j * bk sig t j))
  simp only [Function.comp_apply, zero_mul, Finset.sum_const_zero] at h
  exact h

theorem controlCycle_of_two_features (V : Visp K) (sig : Signals K)
    (s : SwayMotionCorrection K) (t : Int) (h2 : s.task_.featureList.length = 2) :
    controlCycle V sig s t =
      ({ afterControlLaw V sig s t with
          integralLbk_ := fun i => s.integralLbk_ i +
            (scale (swayMotionCorrection V sig s t) STEP).getD i.val 0
          E_ := fun i => s.E_ i + (s.integralLbk_ i +
            (scale (swayMotionCorrection V sig s t) STEP).getD i.val 0) * STEP },
       some (velWaistVispBounded V sig s t)) := by
  have hlen : (scale (swayMotionCorrection V sig s t) STEP).length = 6 := by
    rw [scaled_correction_length, h2]
  unfold controlCycle addAssign
  rw [if_pos hlen]

theorem controlCycle_of_other_features (V : Visp K) (sig : Signals K)
    (s : SwayMotionCorrection K) (t : Int) (h2 : s.task_.featureList.length ≠ 2) :
    controlCycle V sig s t = (afterControlLaw V sig s t, none) := by
  have hlen : ¬ (scale (swayMotionCorrection V sig s t) STEP).length = 6 := by
    rw [scaled_correction_length]
    omega
  unfold controlCycle addAssign
  rw [if_neg hlen]

theorem controlCycle_task (V : Visp K) (sig : Signals K) (s : SwayMotionCorrection K)
    (t : Int) : (controlCycle V sig s t).1.task_ = (controlLaw V sig s t).1 := by
  by_cases h2 : s.task_.featureList.length = 2
  · rw [controlCycle_of_two_features V sig s t h2]
    rfl
  · rw [controlCycle_of_other_features V sig s t h2]
    rfl

theorem controlCycle_initialized (V : Visp K) (sig : Signals K) (s : SwayMotionCorrection K)
    (t : Int) : (controlCycle V sig s t).1.initialized_ = s.initialized_ := by
  by_cases h2 : s.task_.featureList.length = 2
  · rw [controlCycle_of_two_features V sig s t h2]
    rfl
  · rw [controlCycle_of_other_features V sig s t h2]
    rfl

theorem controlCycle_minThreshold (V : Visp K) (sig : Signals K) (s : SwayMotionCorrection K)
    (t : Int) : (controlCycle V sig s t).1.minThreshold_ = s.minThreshold_ := by
  by_cases h2 : s.task_.featureList.length = 2
  · rw [controlCycle_of_two_features V sig s t h2]
    rfl
  · rw [controlCycle_of_other_features V sig s t h2]
    rfl

theorem updateVelocity_tracking (V : Visp K) (sig : Signals K)
    (s : SwayMotionCorrection K) (velWaist : List K) (t : Int)
    (h : s.initialized_ = true)
    (hrows : (sig.Jcom_ t).nbRows = 3)
    (hcols : (sig.Jcom_ t).nbCols = (sig.qdot_ t).length)
    (h2 : s.task_.featureList.length = 2) :
    updateVelocity V sig s velWaist t =
      if shouldStop (controlCycle V sig s t).1 then (stop (controlCycle V sig s t).1,
          some [velWaistVispBounded V sig s t 0, velWaistVispBounded V sig s t 1,
            velWaistVispBounded V sig s t 2])
      else ((controlCycle V sig s t).1,
          some [velWaistVispBounded V sig s t 0, velWaistVispBounded V sig s t 1,
            velWaistVispBounded V sig s t 2]) := by
  have hshape : ¬ ((sig.Jcom_ t).nbRows ≠ 3 ∨ (sig.Jcom_ t).nbCols ≠ (sig.qdot_ t).length) := by
    push_neg
    exact ⟨hrows, hcols⟩
  unfold updateVelocity
  simp only [h, Bool.not_true, Bool.false_eq_true, if_false, if_neg hshape]
  rw [controlCycle_of_two_features V sig s t h2]

theorem updateVelocity_throws (V : Visp K) (sig : Signals K)
    (s : SwayMotionCorrection K) (velWaist : List K) (t : Int)
    (h : s.initialized_ = true)
    (hrows : (sig.Jcom_ t).nbRows = 3)
    (hcols : (sig.Jcom_ t).nbCols = (sig.qdot_ t).length)
    (h2 : s.task_.featureList.length ≠ 2) :
    updateVelocity V sig s velWaist t = (afterControlLaw V sig s t, none) := by
  have hshape : ¬ ((sig.Jcom_ t).nbRows ≠ 3 ∨ (sig.Jcom_ t).nbCols ≠ (sig.qdot_ t).length) := by
    push_neg
    exact ⟨hrows, hcols⟩
  unfold updateVelocity
  simp only [h, Bool.not_true, Bool.false_eq_true, if_false, if_neg hshape]
  rw [controlCycle_of_other_features V sig s t h2]

end SwayMotionCorrection

namespace SwayMotionCorrection

variable {K : Type} [LinearOrderedField K]

theorem infinityNorm_three (a b c : K) :
    infinityNorm [a, b, c] = max (max |a| |b|) |c| := by
  have step : ∀ norm x : K, (if |x| > norm then |x| else norm) = max norm |x| := by
    intro norm x
    split_ifs with h
    · exact (max_eq_right (le_of_lt h)).symm
    · exact (max_eq_left (not_lt.mp h)).symm
  simp only [infinityNorm, List.foldl, step]
  rw [max_eq_right (abs_nonneg a)]

theorem shouldStop_eq_true_iff (s : SwayMotionCorrection K) :
    shouldStop s = true ↔
      max (max |s.task_.error.getD 0 0| |s.task_.error.getD 2 0|) |s.task_.error.getD 4 0|
        < s.minThreshold_ := by
  unfold shouldStop
  rw [decide_eq_true_iff, infinityNorm_three]

/-- C7: `shouldStop` is true exactly when the largest of `|e[0]|`, `|e[2]|`,
`|e[4]|` is strictly below `minThreshold_`, where `e` is `task_.error`; the
components 1, 3 and 5 of a 6-component error do not influence it; with the
threshold `0.1` a maximum of `0.05` gives true and a maximum of `0.2` gives
false. -/
theorem shouldStop_iff_max_below_threshold (s : SwayMotionCorrection K) :
    (shouldStop s = true ↔
      max (max |s.task_.error.getD 0 0| |s.task_.error.getD 2 0|) |s.task_.error.getD 4 0|
        < s.minThreshold_) ∧
    (∀ e0 e1 e2 e3 e4 e5 x1 x3 x5 : K,
      shouldStop { s with task_ := { s.task_ with error := [e0, e1, e2, e3, e4, e5] } } =
        shouldStop { s with task_ := { s.task_ with error := [e0, x1, e2, x3, e4, x5] } }) ∧
    shouldStop { s with
      minThreshold_ := 1 / 10
      task_ := { s.task_ with error := [1 / 100, 7, -1 / 20, 7, 1 / 50, 7] } } = true ∧
    shouldStop { s with
      minThreshold_ := 1 / 10
      task_ := { s.task_ with error := [1 / 100, 0, 1 / 50, 0, -1 / 5, 0] } } = false := by
  refine ⟨shouldStop_eq_true_iff s, ?_, ?_, ?_⟩
  · intro e0 e1 e2 e3 e4 e5 x1 x3 x5
    rfl
  · rw [shouldStop_eq_true_iff]
    have h1 : |(1 / 100 : K)| = 1 / 100 := abs_of_pos (by norm_num)
    have h2 : |(-1 / 20 : K)| = 1 / 20 := by
      rw [neg_div, abs_neg]
      exact abs_of_pos (by norm_num)
    have h3 : |(1 / 50 : K)| = 1 / 50 := abs_of_pos (by norm_num)
    simp only [List.getD_cons_zero, List.getD_cons_succ, h1, h2, h3]
    rw [max_lt_iff, max_lt_iff]
    norm_num
  · rw [← Bool.not_eq_true, shouldStop_eq_true_iff]
    have h1 : |(1 / 100 : K)| = 1 / 100 := abs_of_pos (by norm_num)
    have h2 : |(-1 / 5 : K)| = 1 / 5 := by
      rw [neg_div, abs_neg]
      exact abs_of_pos (by norm_num)
    have h3 : |(1 / 50 : K)| = 1 / 50 := abs_of_pos (by norm_num)
    simp only [List.getD_cons_zero, List.getD_cons_succ, h1, h2, h3]
    rw [max_lt_iff, max_lt_iff]
    norm_num

theorem updateVelocity_stop_decision_of_two_features (V : Visp K) (sig : Signals K)
    (s : SwayMotionCorrection K) (velWaist : List K) (t : Int)
    (h : s.initialized_ = true)
    (hrows : (sig.Jcom_ t).nbRows = 3)
    (hcols : (sig.Jcom_ t).nbCols = (sig.qdot_ t).length)
    (h2 : s.task_.featureList.length = 2) :
    ((updateVelocity V sig s velWaist t).1.initialized_ = false ↔
      infinityNorm [(controlLaw V sig s t).1.error.getD 0 0,
        (controlLaw V sig s t).1.error.getD 2 0, (controlLaw V sig s t).1.error.getD 4 0]
        < s.minThreshold_) ∧
    ((updateVelocity V sig s velWaist t).1.initialized_ = true ↔
      ¬ infinityNorm [(controlLaw V sig s t).1.error.getD 0 0,
        (controlLaw V sig s t).1.error.getD 2 0, (controlLaw V sig s t).1.error.getD 4 0]
        < s.minThreshold_) ∧
    (updateVelocity V sig s velWaist t).2 =
      some [velWaistVispBounded V sig s t 0, velWaistVispBounded V sig s t 1,
        velWaistVispBounded V sig s t 2] := by
  have hstopIff : shouldStop (controlCycle V sig s t).1 = true ↔
      infinityNorm [(controlLaw V sig s t).1.error.getD 0 0,
        (controlLaw V sig s t).1.error.getD 2 0, (controlLaw V sig s t).1.error.getD 4 0]
        < s.minThreshold_ := by
    unfold shouldStop
    rw [decide_eq_true_iff, controlCycle_task, controlCycle_minThreshold]
  have hinit : (controlCycle V sig s t).1.initialized_ = true := by
    rw [controlCycle_initialized]
    exact h
  rw [updateVelocity_tracking V sig s velWaist t h hrows hcols h2]
  by_cases hstop : shouldStop (controlCycle V sig s t).1 = true
  · rw [if_pos hstop]
    have hlt := hstopIff.mp hstop
    refine ⟨⟨fun _ => hlt, fun _ => rfl⟩, ⟨fun hc => ?_, fun hc => absurd hlt hc⟩, rfl⟩
    exact absurd hc (by simp [stop])
  · rw [if_neg hstop]
    have hnlt : ¬ infinityNorm [(controlLaw V sig s t).1.error.getD 0 0,
        (controlLaw V sig s t).1.error.getD 2 0, (controlLaw V sig s t).1.error.getD 4 0]
        < s.minThreshold_ := fun hc => hstop (hstopIff.mpr hc)
    refine ⟨⟨fun hc => ?_, fun hc => absurd hc hnlt⟩, ⟨fun _ => hnlt, fun _ => hinit⟩, rfl⟩
    rw [hinit] at hc
    exact absurd hc (by simp)

end SwayMotionCorrection

/-! ## The first cycle at the desired pose -/

namespace SwayMotionCorrection

variable {K : Type} [LinearOrderedField K]

theorem inverse_one : inverse (1 : Mat4 K) = 1 := by
  funext i j
  fin_cases i <;> fin_cases j <;> simp [inverse, Matrix.one_apply]

theorem rotation_one : rotation (1 : Mat4 K) = 1 := by
  funext i j
  fin_cases i <;> fin_cases j <;> simp [rotation, Matrix.one_apply] <;> decide

theorem translation_one (i : Fin 3) : translation (1 : Mat4 K) i = 0 := by
  fin_cases i <;> (simp [translation, Matrix.one_apply]; try decide)

theorem dot_replicate_zero (a : List K) (n : ℕ) : dot a (List.replicate n 0) = 0 := by
  induction a generalizing n with
  | nil => simp [dot]
  | cons x xs ih =>
    cases n with
    | zero => simp [dot]
    | succ k =>
      have := ih k
      simp only [dot] at this
      simp [dot, List.replicate_succ, this]

theorem velocitySaturation_zero (vmax : Fin 3 → K) :
    velocitySaturation vmax (fun _ => 0) = fun _ => 0 := by
  funext i
  have h : RawVel3ddl (fun _ : Fin 6 => (0 : K)) i = 0 := by
    fin_cases i <;> rfl
  simp only [velocitySaturation, h, zero_mul]

/-- C9: after the constructor, `setMaximumVelocity (0.1, 0.1, 0.1)` and
`initialize` with the identity as desired pose, the entity is initialized; if
the sensor pose is the identity at the time of the next `updateVelocity` and
the Jacobian is well shaped, this call returns `(0, 0, 0)` and leaves the
entity not initialized.  The library is only asked that the theta-U vector of
the identity rotation is zero. -/
theorem first_cycle_at_identity (V : Visp K) (sig : Signals K) (velWaist : List K)
    (t0 t : Int)
    (hthetaU : V.thetaU 1 = fun _ => 0)
    (hpose : sig.cMo_ t = 1)
    (hrows : (sig.Jcom_ t).nbRows = 3)
    (hcols : (sig.Jcom_ t).nbCols = (sig.qdot_ t).length) :
    (initialize_ V sig (setMaximumVelocity ctor (1 / 10) (1 / 10) (1 / 10)) 1 t0).initialized_
        = true ∧
      (updateVelocity V sig
        (initialize_ V sig (setMaximumVelocity ctor (1 / 10) (1 / 10) (1 / 10)) 1 t0)
        velWaist t).2 = some [0, 0, 0] ∧
      (updateVelocity V sig
        (initialize_ V sig (setMaximumVelocity ctor (1 / 10) (1 / 10) (1 / 10)) 1 t0)
        velWaist t).1.initialized_ = false := by
  have hinit : (initialize_ V sig (setMaximumVelocity ctor (1 / 10) (1 / 10) (1 / 10)) 1
      t0).initialized_ = true := rfl
  have hfl : (initialize_ V sig (setMaximumVelocity ctor (1 / 10) (1 / 10) (1 / 10)) 1
      t0).task_.featureList = [Feature.FT, Feature.FThU] := rfl
  have h2 : (initialize_ V sig (setMaximumVelocity ctor (1 / 10) (1 / 10) (1 / 10)) 1
      t0).task_.featureList.length = 2 := rfl
  have hcd : cdMcOf sig
      (initialize_ V sig (setMaximumVelocity ctor (1 / 10) (1 / 10) (1 / 10)) 1 t0) t = 1 := by
    have h1 : (initialize_ V sig (setMaximumVelocity ctor (1 / 10) (1 / 10) (1 / 10)) 1
      t0).cdMo_ = 1 := rfl
    have h3 : convert (inverse (1 : Mat4 K)) = 1 := by
      rw [inverse_one]
      rfl
    unfold cdMcOf
    rw [h1, hpose, h3, mul_one]
  have herr : (controlLaw V sig
      (initialize_ V sig (setMaximumVelocity ctor (1 / 10) (1 / 10) (1 / 10)) 1 t0) t).1.error
      = List.replicate 6 0 := by
    simp only [controlLaw, computeControlLaw, hcd, hfl, rotation_one, hthetaU]
    simp [featureError, comps3, translation_one, List.replicate]
  have hc : (controlLaw V sig
      (initialize_ V sig (setMaximumVelocity ctor (1 / 10) (1 / 10) (1 / 10)) 1 t0) t).2
      = fun _ => 0 := by
    funext j
    have he := herr
    simp only [controlLaw, computeControlLaw] at he ⊢
    rw [he, dot_replicate_zero, mul_zero]
  have hvel : velWaistVispBounded V sig
      (initialize_ V sig (setMaximumVelocity ctor (1 / 10) (1 / 10) (1 / 10)) 1 t0) t
      = fun _ => 0 := by
    unfold velWaistVispBounded
    rw [hc]
    have hz : (fun _ : Fin 6 => (0 : K)) = 0 := rfl
    rw [hz, Matrix.mulVec_zero, ← hz, velocitySaturation_zero]
  have hstop : shouldStop (controlCycle V sig
      (initialize_ V sig (setMaximumVelocity ctor (1 / 10) (1 / 10) (1 / 10)) 1 t0) t).1
      = true := by
    rw [shouldStop_eq_true_iff, controlCycle_task, controlCycle_minThreshold, herr]
    have hthr : (initialize_ V sig (setMaximumVelocity ctor (1 / 10) (1 / 10) (1 / 10)) 1
      t0).minThreshold_ = 1 / 10 := rfl
    rw [hthr]
    simp [List.replicate]
  rw [updateVelocity_tracking V sig _ velWaist t hinit hrows hcols h2, if_pos hstop, hvel]
  exact ⟨hinit, rfl, rfl⟩

/-- C9, at a concrete input: the sample library and the sample signals (zero
3×2 Jacobian, zero joint velocity, zero reference velocity, identity poses). -/
theorem first_cycle_at_identity_witness :
    (sampleVisp.thetaU 1 = fun _ => 0) ∧
      sampleSignals.cMo_ 1 = 1 ∧
      (sampleSignals.Jcom_ 1).nbRows = 3 ∧
      (sampleSignals.Jcom_ 1).nbCols = (sampleSignals.qdot_ 1).length ∧
      (updateVelocity sampleVisp sampleSignals sampleTracking [0, 0, 0] 1).2
        = some [0, 0, 0] ∧
      (updateVelocity sampleVisp sampleSignals sampleTracking [0, 0, 0] 1).1.initialized_
        = false :=
  have hth : sampleVisp.thetaU 1 = fun _ => 0 := by
    funext i
    fin_cases i <;> simp [sampleVisp, Matrix.one_apply]
  ⟨hth, rfl, rfl, rfl,
   (first_cycle_at_identity sampleVisp sampleSignals [0, 0, 0] 0 1 hth rfl rfl rfl).2⟩

end SwayMotionCorrection

/-! ## The accumulators -/

namespace SwayMotionCorrection

variable {K : Type} [LinearOrderedField K]

theorem updateVelocity_fst_of_tracking (V : Visp K) (sig : Signals K)
    (s : SwayMotionCorrection K) (velWaist : List K) (t : Int)
    (h : s.initialized_ = true)
    (hrows : (sig.Jcom_ t).nbRows = 3)
    (hcols : (sig.Jcom_ t).nbCols = (sig.qdot_ t).length)
    (h2 : s.task_.featureList.length = 2) :
    (updateVelocity V sig s velWaist t).1 = (controlCycle V sig s t).1 ∨
      (updateVelocity V sig s velWaist t).1 = stop (controlCycle V sig s t).1 := by
  rw [updateVelocity_tracking V sig s velWaist t h hrows hcols h2]
  split_ifs
  · exact Or.inr rfl
  · exact Or.inl rfl

theorem controlCycle_integralLbk (V : Visp K) (sig : Signals K)
    (s : SwayMotionCorrection K) (t : Int) (h2 : s.task_.featureList.length = 2)
    (i : Fin 6) :
    (controlCycle V sig s t).1.integralLbk_ i =
      s.integralLbk_ i +
        (Finset.univ.sum
          (fun j => ((controlLaw V sig s t).1.L.getD i.val (fun _ => 0)) j * bk sig t j))
          * STEP := by
  rw [controlCycle_of_two_features V sig s t h2, ← scaled_correction_getD]

theorem controlCycle_E (V : Visp K) (sig : Signals K)
    (s : SwayMotionCorrection K) (t : Int) (h2 : s.task_.featureList.length = 2)
    (i : Fin 6) :
    (controlCycle V sig s t).1.E_ i =
      s.E_ i + (controlCycle V sig s t).1.integralLbk_ i * STEP := by
  rw [controlCycle_of_two_features V sig s t h2]

theorem updateVelocity_integralLbk (V : Visp K) (sig : Signals K)
    (s : SwayMotionCorrection K) (velWaist : List K) (t : Int)
    (h : s.initialized_ = true)
    (hrows : (sig.Jcom_ t).nbRows = 3)
    (hcols : (sig.Jcom_ t).nbCols = (sig.qdot_ t).length)
    (h2 : s.task_.featureList.length = 2) (i : Fin 6) :
    (updateVelocity V sig s velWaist t).1.integralLbk_ i =
      s.integralLbk_ i +
        (Finset.univ.sum
          (fun j => ((controlLaw V sig s t).1.L.getD i.val (fun _ => 0)) j * bk sig t j))
          * STEP := by
  rw [← controlCycle_integralLbk V sig s t h2 i]
  rcases updateVelocity_fst_of_tracking V sig s velWaist t h hrows hcols h2 with hu | hu
  · rw [hu]
  · rw [hu]
    rfl

theorem updateVelocity_E (V : Visp K) (sig : Signals K)
    (s : SwayMotionCorrection K) (velWaist : List K) (t : Int)
    (h : s.initialized_ = true)
    (hrows : (sig.Jcom_ t).nbRows = 3)
    (hcols : (sig.Jcom_ t).nbCols = (sig.qdot_ t).length)
    (h2 : s.task_.featureList.length = 2) (i : Fin 6) :
    (updateVelocity V sig s velWaist t).1.E_ i =
      s.E_ i + (updateVelocity V sig s velWaist t).1.integralLbk_ i * STEP := by
  have hc := controlCycle_E V sig s t h2 i
  rcases updateVelocity_fst_of_tracking V sig s velWaist t h hrows hcols h2 with hu | hu <;>
    (rw [hu]; exact hc)

theorem updateVelocity_featureList (V : Visp K) (sig : Signals K)
    (s : SwayMotionCorrection K) (velWaist : List K) (t : Int)
    (h : s.initialized_ = true)
    (hrows : (sig.Jcom_ t).nbRows = 3)
    (hcols : (sig.Jcom_ t).nbCols = (sig.qdot_ t).length)
    (h2 : s.task_.featureList.length = 2) :
    (updateVelocity V sig s velWaist t).1.task_.featureList = s.task_.featureList := by
  have hc : (controlCycle V sig s t).1.task_.featureList = s.task_.featureList := by
    rw [controlCycle_task]
    rfl
  rcases updateVelocity_fst_of_tracking V sig s velWaist t h hrows hcols h2 with hu | hu <;>
    (rw [hu]; exact hc)

theorem initialize_of_not_initialized (V : Visp K) (sig : Signals K)
    (s : SwayMotionCorrection K) (cdMo : Mat4 K) (t : Int) (h : s.initialized_ = false) :
    (initialize_ V sig s cdMo t).initialized_ = true ∧
      (initialize_ V sig s cdMo t).E_ = (fun _ => 0) ∧
      (initialize_ V sig s cdMo t).integralLbk_ = s.integralLbk_ ∧
      (initialize_ V sig s cdMo t).task_.featureList =
        s.task_.featureList ++ [Feature.FT, Feature.FThU] := by
  unfold initialize_
  simp [h, addFeature]

theorem sampleTracking_L_row_zero :
    Finset.univ.sum
      (fun j => ((controlLaw sampleVisp pushSignals sampleTracking 1).1.L.getD 0 (fun _ => 0)) j
        * bk pushSignals 1 j) = 1 := by
  simp [controlLaw, computeControlLaw, sampleTracking, initialize_, setMaximumVelocity, ctor,
    addFeature, featureInteraction, rows3, sampleVisp, bk, bkOf, inputComVel, dcom,
    pushSignals, mlMultiply, Fin.sum_univ_succ, List.range_succ]
  norm_num

theorem sampleSecondEpisode_integralLbk : sampleSecondEpisode.integralLbk_ 0 = 1 / 200 := by
  have h := updateVelocity_integralLbk sampleVisp pushSignals sampleTracking [0, 0, 0] 1
    rfl rfl rfl rfl 0
  rw [Fin.val_zero, sampleTracking_L_row_zero] at h
  show (updateVelocity sampleVisp pushSignals sampleTracking [0, 0, 0] 1).1.integralLbk_ 0
    = 1 / 200
  rw [h]
  norm_num [sampleTracking, initialize_, setMaximumVelocity, ctor, STEP]

theorem sampleSecondEpisode_featureList :
    sampleSecondEpisode.task_.featureList =
      [Feature.FT, Feature.FThU, Feature.FT, Feature.FThU] := by
  have h := updateVelocity_featureList sampleVisp pushSignals sampleTracking [0, 0, 0] 1
    rfl rfl rfl rfl
  unfold sampleSecondEpisode
  rw [(initialize_of_not_initialized sampleVisp pushSignals _ 1 2 rfl).2.2.2]
  show (updateVelocity sampleVisp pushSignals sampleTracking [0, 0, 0] 1).1.task_.featureList
    ++ [Feature.FT, Feature.FThU] = _
  rw [h]
  rfl

/-- C11: the claim fails on a reachable state.  The sample tracking entity runs
one cycle with a disturbance and is stopped: it is not initialized and
`integralLbk_[0]` is `0.005`.  After a new `initialize` it is initialized and
`E_` is the zero vector, but `integralLbk_[0]` is still `0.005`:
`initialize` resets `E_` only. -/
theorem initialize_keeps_integralLbk_of_previous_episode :
    (stop (updateVelocity sampleVisp pushSignals sampleTracking [0, 0, 0] 1).1).initialized_
        = false ∧
      sampleSecondEpisode.initialized_ = true ∧
      sampleSecondEpisode.E_ = (fun _ => 0) ∧
      sampleSecondEpisode.integralLbk_ 0 = 1 / 200 ∧
      sampleSecondEpisode.integralLbk_ ≠ (fun _ => 0) := by
  refine ⟨rfl, rfl, rfl, sampleSecondEpisode_integralLbk, ?_⟩
  intro h
  have h0 := congrFun h 0
  rw [sampleSecondEpisode_integralLbk] at h0
  norm_num at h0

theorem updateVelocity_minThreshold (V : Visp K) (sig : Signals K)
    (s : SwayMotionCorrection K) (velWaist : List K) (t : Int)
    (h : s.initialized_ = true)
    (hrows : (sig.Jcom_ t).nbRows = 3)
    (hcols : (sig.Jcom_ t).nbCols = (sig.qdot_ t).length)
    (h2 : s.task_.featureList.length = 2) :
    (updateVelocity V sig s velWaist t).1.minThreshold_ = s.minThreshold_ := by
  have hc := controlCycle_minThreshold V sig s t
  rcases updateVelocity_fst_of_tracking V sig s velWaist t h hrows hcols h2 with hu | hu <;>
    (rw [hu]; exact hc)

theorem sampleSecondEpisode_length : sampleSecondEpisode.task_.featureList.length ≠ 2 := by
  rw [sampleSecondEpisode_featureList]
  decide

theorem sampleSecondEpisode_minThreshold : sampleSecondEpisode.minThreshold_ = 1 / 10 := by
  have h := updateVelocity_minThreshold sampleVisp pushSignals sampleTracking [0, 0, 0] 1
    rfl rfl rfl rfl
  show (updateVelocity sampleVisp pushSignals sampleTracking [0, 0, 0] 1).1.minThreshold_
    = 1 / 10
  rw [h]
  rfl

theorem sampleSecondEpisode_cdMcOf (t : Int) :
    cdMcOf sampleSignals sampleSecondEpisode t = 1 := by
  have h1 : sampleSecondEpisode.cdMo_ = 1 := rfl
  have h3 : convert (inverse (1 : Mat4 ℚ)) = 1 := by
    rw [inverse_one]
    rfl
  unfold cdMcOf
  rw [h1]
  show 1 * convert (inverse (1 : Mat4 ℚ)) = 1
  rw [h3, mul_one]

theorem sampleSecondEpisode_error (t : Int) :
    (controlLaw sampleVisp sampleSignals sampleSecondEpisode t).1.error
      = List.replicate 12 0 := by
  have hth : sampleVisp.thetaU 1 = fun _ => 0 := by
    funext i
    fin_cases i <;> simp [sampleVisp, Matrix.one_apply]
  simp only [controlLaw, computeControlLaw, sampleSecondEpisode_cdMcOf,
    sampleSecondEpisode_featureList, rotation_one, hth]
  simp [featureError, comps3, translation_one, List.replicate]

/-- C8: the claim fails on a reachable state.  The entity after `initialize`,
one cycle, `stop` and a second `initialize` is initialized, and the Jacobian of
the sample signals is well shaped; the next `updateVelocity` is left by the
exception of `integralLbk_ += swayMotionCorrection * STEP` (the task holds four
features): no velocity is returned and the entity stays initialized, although
the stop test holds on the task error computed in this call. -/
theorem updateVelocity_throws_after_second_initialize :
    sampleSecondEpisode.initialized_ = true ∧
      (sampleSignals.Jcom_ 3).nbRows = 3 ∧
      (sampleSignals.Jcom_ 3).nbCols = (sampleSignals.qdot_ 3).length ∧
      (updateVelocity sampleVisp sampleSignals sampleSecondEpisode [0, 0, 0] 3).2 = none ∧
      (updateVelocity sampleVisp sampleSignals sampleSecondEpisode [0, 0, 0] 3).1.initialized_
        = true ∧
      shouldStop (updateVelocity sampleVisp sampleSignals sampleSecondEpisode [0, 0, 0] 3).1
        = true := by
  have hu := updateVelocity_throws sampleVisp sampleSignals sampleSecondEpisode [0, 0, 0] 3
    rfl rfl rfl sampleSecondEpisode_length
  refine ⟨rfl, rfl, rfl, ?_, ?_, ?_⟩
  · rw [hu]
  · rw [hu]
    rfl
  · rw [hu, shouldStop_eq_true_iff]
    show max (max |(controlLaw sampleVisp sampleSignals sampleSecondEpisode 3).1.error.getD 0 0|
      |(controlLaw sampleVisp sampleSignals sampleSecondEpisode 3).1.error.getD 2 0|)
      |(controlLaw sampleVisp sampleSignals sampleSecondEpisode 3).1.error.getD 4 0|
      < sampleSecondEpisode.minThreshold_
    rw [sampleSecondEpisode_error, sampleSecondEpisode_minThreshold]
    simp [List.replicate]

theorem sampleSecondEpisode_L_row_zero :
    Finset.univ.sum
      (fun j =>
        ((controlLaw sampleVisp pushSignals sampleSecondEpisode 3).1.L.getD 0 (fun _ => 0)) j
          * bk pushSignals 3 j) = 1 := by
  simp only [controlLaw, computeControlLaw, sampleSecondEpisode_featureList]
  simp [featureInteraction, rows3, sampleVisp, bk, bkOf, inputComVel, dcom,
    pushSignals, mlMultiply, Fin.sum_univ_succ, List.range_succ]
  norm_num

/-- C12: the claim fails on a reachable state.  The entity after `initialize`,
one cycle, `stop` and a second `initialize` is initialized and the Jacobian of
the signals with a disturbance is well shaped; in the next `updateVelocity` the
matrix `task_.L` has 12 rows, the first component of `task_.L * bk` is 1, and
the call is left by the exception of `integralLbk_ += swayMotionCorrection *
STEP`: `integralLbk_` and `E_` keep their values, so `integralLbk_[0]` is not
the old value plus `1 * STEP`. -/
theorem accumulators_unchanged_after_second_initialize :
    sampleSecondEpisode.initialized_ = true ∧
      (pushSignals.Jcom_ 3).nbRows = 3 ∧
      (pushSignals.Jcom_ 3).nbCols = (pushSignals.qdot_ 3).length ∧
      (updateVelocity sampleVisp pushSignals sampleSecondEpisode [0, 0, 0] 3).2 = none ∧
      (updateVelocity sampleVisp pushSignals sampleSecondEpisode [0, 0, 0] 3).1.task_.L.length
        = 12 ∧
      Finset.univ.sum
        (fun j =>
          ((updateVelocity sampleVisp pushSignals sampleSecondEpisode [0, 0, 0] 3).1.task_.L.getD
            0 (fun _ => 0)) j * bk pushSignals 3 j) = 1 ∧
      (updateVelocity sampleVisp pushSignals sampleSecondEpisode [0, 0, 0] 3).1.integralLbk_
        = sampleSecondEpisode.integralLbk_ ∧
      (updateVelocity sampleVisp pushSignals sampleSecondEpisode [0, 0, 0] 3).1.E_
        = sampleSecondEpisode.E_ ∧
      (updateVelocity sampleVisp pushSignals sampleSecondEpisode [0, 0, 0] 3).1.integralLbk_ 0
        ≠ sampleSecondEpisode.integralLbk_ 0 + 1 * STEP := by
  have hu := updateVelocity_throws sampleVisp pushSignals sampleSecondEpisode [0, 0, 0] 3
    rfl rfl rfl sampleSecondEpisode_length
  have hlen : (controlLaw sampleVisp pushSignals sampleSecondEpisode 3).1.L.length = 12 := by
    rw [controlLaw_L_length, sampleSecondEpisode_featureList]
    rfl
  refine ⟨rfl, rfl, rfl, ?_, ?_, ?_, ?_, ?_, ?_⟩
  · rw [hu]
  · rw [hu]
    exact hlen
  · rw [hu]
    exact sampleSecondEpisode_L_row_zero
  · rw [hu]
    rfl
  · rw [hu]
    rfl
  · rw [hu]
    show sampleSecondEpisode.integralLbk_ 0 ≠ sampleSecondEpisode.integralLbk_ 0 + 1 * STEP
    rw [sampleSecondEpisode_integralLbk]
    norm_num [STEP]

/-- C18: the claim fails on a reachable state.  After `initialize`, one cycle,
`stop` and a second `initialize`, the entity is initialized and the task
holds four features, the two feature objects registered twice; the next cycle
stacks an error of 12 components. -/
theorem second_initialize_registers_features_again :
    sampleSecondEpisode.initialized_ = true ∧
      sampleSecondEpisode.task_.featureList =
        [Feature.FT, Feature.FThU, Feature.FT, Feature.FThU] ∧
      (controlCycle sampleVisp sampleSignals sampleSecondEpisode 3).1.task_.error.length
        = 12 := by
  refine ⟨rfl, sampleSecondEpisode_featureList, ?_⟩
  rw [controlCycle_task, controlLaw_error_length, sampleSecondEpisode_featureList]
  rfl

end SwayMotionCorrection

/-! ## What the output of a cycle depends on -/

namespace SwayMotionCorrection

variable {K : Type} [LinearOrderedField K]

/-- C13: two cycles of initialized entities with well-shaped Jacobians that
agree on the sensor pose, the desired pose, the two world poses and the
limits (and on the task's registered features, its gain and the threshold,
which no member function changes during tracking) return the same velocity
(or are both left by the exception of the size check, which depends on the
number of features only) and end in the same state of `initialized_`, whatever
the Jacobians, the joint velocities, the reference velocities and the values
of `integralLbk_` and `E_` are. -/
theorem output_independent_of_accumulators (V : Visp K) (sig1 sig2 : Signals K)
    (s1 s2 : SwayMotionCorrection K) (velWaist1 velWaist2 : List K) (t1 t2 : Int)
    (h1 : s1.initialized_ = true) (h2 : s2.initialized_ = true)
    (hrows1 : (sig1.Jcom_ t1).nbRows = 3)
    (hcols1 : (sig1.Jcom_ t1).nbCols = (sig1.qdot_ t1).length)
    (hrows2 : (sig2.Jcom_ t2).nbRows = 3)
    (hcols2 : (sig2.Jcom_ t2).nbCols = (sig2.qdot_ t2).length)
    (hpose : sig1.cMo_ t1 = sig2.cMo_ t2)
    (hdesired : s1.cdMo_ = s2.cdMo_)
    (hwaist : sig1.wMwaist_ t1 = sig2.wMwaist_ t2)
    (hcamera : sig1.wMcamera_ t1 = sig2.wMcamera_ t2)
    (hlimits : s1.vmax_ = s2.vmax_)
    (hfeatures : s1.task_.featureList = s2.task_.featureList)
    (hgain : s1.task_.lambda = s2.task_.lambda)
    (hthreshold : s1.minThreshold_ = s2.minThreshold_) :
    (updateVelocity V sig1 s1 velWaist1 t1).2 = (updateVelocity V sig2 s2 velWaist2 t2).2 ∧
      (updateVelocity V sig1 s1 velWaist1 t1).1.initialized_ =
        (updateVelocity V sig2 s2 velWaist2 t2).1.initialized_ := by
  have hvel : velWaistVispBounded V sig1 s1 t1 = velWaistVispBounded V sig2 s2 t2 := by
    simp only [velWaistVispBounded, controlLaw, cdMcOf, computeControlLaw,
      fromCameraToWaistTwist, hpose, hdesired, hwaist, hcamera, hlimits, hfeatures, hgain]
  have hstop : shouldStop (controlCycle V sig1 s1 t1).1 =
      shouldStop (controlCycle V sig2 s2 t2).1 := by
    simp only [shouldStop, controlCycle_task, controlCycle_minThreshold, controlLaw, cdMcOf,
      computeControlLaw, hpose, hdesired, hfeatures, hthreshold]
  have hi1 : (controlCycle V sig1 s1 t1).1.initialized_ = true := by
    rw [controlCycle_initialized]
    exact h1
  have hi2 : (controlCycle V sig2 s2 t2).1.initialized_ = true := by
    rw [controlCycle_initialized]
    exact h2
  by_cases hlen : s2.task_.featureList.length = 2
  · have hlen1 : s1.task_.featureList.length = 2 := by rw [hfeatures]; exact hlen
    rw [updateVelocity_tracking V sig1 s1 velWaist1 t1 h1 hrows1 hcols1 hlen1,
      updateVelocity_tracking V sig2 s2 velWaist2 t2 h2 hrows2 hcols2 hlen, hstop, hvel]
    by_cases hs : shouldStop (controlCycle V sig2 s2 t2).1 = true
    · rw [if_pos hs, if_pos hs]
      exact ⟨rfl, rfl⟩
    · rw [if_neg hs, if_neg hs]
      exact ⟨rfl, hi1.trans hi2.symm⟩
  · have hlen1 : s1.task_.featureList.length ≠ 2 := by rw [hfeatures]; exact hlen
    rw [updateVelocity_throws V sig1 s1 velWaist1 t1 h1 hrows1 hcols1 hlen1,
      updateVelocity_throws V sig2 s2 velWaist2 t2 h2 hrows2 hcols2 hlen]
    exact ⟨rfl, h1.trans h2.symm⟩

/-- C13, at a concrete input: the sample tracking entity on the quiet signals
at time 1 and the same entity with other accumulators on the signals with a
disturbance at time 4 return the same velocity. -/
theorem output_independent_of_accumulators_witness :
    sampleTracking.initialized_ = true ∧ sampleDrifted.initialized_ = true ∧
      (sampleSignals.Jcom_ 1).nbRows = 3 ∧
      (sampleSignals.Jcom_ 1).nbCols = (sampleSignals.qdot_ 1).length ∧
      (pushSignals.Jcom_ 4).nbRows = 3 ∧
      (pushSignals.Jcom_ 4).nbCols = (pushSignals.qdot_ 4).length ∧
      sampleSignals.cMo_ 1 = pushSignals.cMo_ 4 ∧
      sampleTracking.cdMo_ = sampleDrifted.cdMo_ ∧
      sampleSignals.wMwaist_ 1 = pushSignals.wMwaist_ 4 ∧
      sampleSignals.wMcamera_ 1 = pushSignals.wMcamera_ 4 ∧
      sampleTracking.vmax_ = sampleDrifted.vmax_ ∧
      sampleTracking.task_.featureList = sampleDrifted.task_.featureList ∧
      sampleTracking.task_.lambda = sampleDrifted.task_.lambda ∧
      sampleTracking.minThreshold_ = sampleDrifted.minThreshold_ ∧
      sampleTracking.integralLbk_ ≠ sampleDrifted.integralLbk_ ∧
      (updateVelocity sampleVisp sampleSignals sampleTracking [0, 0, 0] 1).2 =
        (updateVelocity sampleVisp pushSignals sampleDrifted [1, 1, 1] 4).2 :=
  ⟨rfl, rfl, rfl, rfl, rfl, rfl, rfl, rfl, rfl, rfl, rfl, rfl, rfl, rfl,
   fun h => by
     have h0 := congrFun h 0
     simp [sampleTracking, sampleDrifted, initialize_, setMaximumVelocity, ctor] at h0,
   (output_independent_of_accumulators sampleVisp sampleSignals pushSignals sampleTracking
      sampleDrifted [0, 0, 0] [1, 1, 1] 1 4 rfl rfl rfl rfl rfl rfl rfl rfl rfl rfl rfl rfl
      rfl rfl).1⟩

end SwayMotionCorrection

/-! ## The saturation: common factor, read components, denominators -/

namespace SwayMotionCorrection

variable {K : Type} [LinearOrderedField K]

theorem Vinf_eq (vmax : Fin 3 → K) (i : Fin 3) : Vinf vmax i = 19 / 20 * vmax i := by
  unfold Vinf dv
  ring

theorem Vsup_eq (vmax : Fin 3 → K) (i : Fin 3) : Vsup vmax i = 21 / 20 * vmax i := by
  unfold Vsup dv
  ring

theorem clamp_pos (vmax : Fin 3 → K) (i : Fin 3) (a : K) (hm : 0 < vmax i) :
    0 < max (Vinf vmax i) (min a (Vsup vmax i)) := by
  have h : 0 < Vinf vmax i := by rw [Vinf_eq]; positivity
  exact lt_of_lt_of_le h (le_max_left _ _)

theorem axisFac_pos (vmax : Fin 3 → K) (i : Fin 3) (x : K) (hm : 0 < vmax i) :
    0 < min (vmax i / (|x| + 1 / 100000))
      (newfac vmax i (max (Vinf vmax i) (min |x| (Vsup vmax i)))) := by
  have hc := clamp_pos vmax i |x| hm
  have hden : (0 : K) < |x| + 1 / 100000 := by positivity
  apply lt_min
  · exact div_pos hm hden
  · rw [newfac_eq vmax i _ hm.ne' hc.ne']
    positivity

theorem satFac_pos (vmax raw : Fin 3 → K) (hpos : ∀ i, 0 < vmax i) : 0 < satFac vmax raw := by
  rw [satFac_closed vmax raw hpos]
  exact lt_min (lt_min (lt_min zero_lt_one (axisFac_pos vmax 0 (raw 0) (hpos 0)))
    (axisFac_pos vmax 1 (raw 1) (hpos 1))) (axisFac_pos vmax 2 (raw 2) (hpos 2))

/-- C14: for limits that are strictly positive on the three axes there is one
scalar `fac`, with `0 ≤ fac ≤ 1` (and even `0 < fac`), such that the result of
`velocitySaturation` is `(fac * v[0], fac * v[1], fac * v[5])`; hence no
component grows in absolute value and none changes sign. -/
theorem velocitySaturation_common_factor (vmax : Fin 3 → K) (velocity : Fin 6 → K)
    (hpos : ∀ i, 0 < vmax i) :
    ∃ fac : K, 0 ≤ fac ∧ fac ≤ 1 ∧ 0 < fac ∧
      velocitySaturation vmax velocity =
        ![fac * velocity 0, fac * velocity 1, fac * velocity 5] ∧
      (∀ i, |velocitySaturation vmax velocity i| ≤ |RawVel3ddl velocity i|) ∧
      (∀ i, 0 ≤ velocitySaturation vmax velocity i * RawVel3ddl velocity i) := by
  have hF := satFac_pos vmax (RawVel3ddl velocity) hpos
  have hU := satFac_le_one vmax (RawVel3ddl velocity) (fun i => (hpos i).le)
  refine ⟨satFac vmax (RawVel3ddl velocity), hF.le, hU, hF, ?_, ?_, ?_⟩
  · funext i
    fin_cases i
    · exact mul_comm _ _
    · exact mul_comm _ _
    · exact mul_comm _ _
  · intro i
    unfold velocitySaturation
    rw [abs_mul, abs_of_pos hF]
    exact mul_le_of_le_one_right (abs_nonneg _) hU
  · intro i
    unfold velocitySaturation
    have : RawVel3ddl velocity i * satFac vmax (RawVel3ddl velocity) * RawVel3ddl velocity i
        = satFac vmax (RawVel3ddl velocity) * (RawVel3ddl velocity i * RawVel3ddl velocity i) := by
      ring
    rw [this]
    exact mul_nonneg hF.le (mul_self_nonneg _)

/-- C14, at a concrete input: limits `(1, 2, 3)` and the twist
`(5, -7, 0, 0, 0, 9)`. -/
theorem velocitySaturation_common_factor_witness :
    (∀ i, 0 < (![1, 2, 3] : Fin 3 → ℚ) i) ∧
      ∃ fac : ℚ, 0 ≤ fac ∧ fac ≤ 1 ∧ 0 < fac ∧
        velocitySaturation (![1, 2, 3] : Fin 3 → ℚ) ![5, -7, 0, 0, 0, 9] =
          ![fac * (![5, -7, 0, 0, 0, 9] : Fin 6 → ℚ) 0,
            fac * (![5, -7, 0, 0, 0, 9] : Fin 6 → ℚ) 1,
            fac * (![5, -7, 0, 0, 0, 9] : Fin 6 → ℚ) 5] :=
  ⟨by intro i; fin_cases i <;> simp,
   (velocitySaturation_common_factor (![1, 2, 3] : Fin 3 → ℚ) ![5, -7, 0, 0, 0, 9]
      (by intro i; fin_cases i <;> simp)).imp
     (fun _ h => ⟨h.1, h.2.1, h.2.2.1, h.2.2.2.1⟩)⟩

/-- C15: the claim fails at the limits the constructor leaves and the zero
twist.  On axis 0 the band test `Vinf[0] <= absRawVel && absRawVel <= Vsup[0]`
holds (all three numbers are 0) and the denominator `2 * dv[0] * absRawVel`
of the quotient evaluated next is 0. -/
theorem smoothing_denominator_zero_at_default_limits :
    (ctor : SwayMotionCorrection ℚ).vmax_ = (fun _ => 0) ∧
      Vinf (ctor : SwayMotionCorrection ℚ).vmax_ 0 ≤ |RawVel3ddl (fun _ : Fin 6 => (0 : ℚ)) 0| ∧
      |RawVel3ddl (fun _ : Fin 6 => (0 : ℚ)) 0| ≤ Vsup (ctor : SwayMotionCorrection ℚ).vmax_ 0 ∧
      2 * dv (ctor : SwayMotionCorrection ℚ).vmax_ 0 * |RawVel3ddl (fun _ : Fin 6 => (0 : ℚ)) 0|
        = 0 := by
  have hv : (ctor : SwayMotionCorrection ℚ).vmax_ = (fun _ => 0) := by
    funext i
    simp [ctor]
  refine ⟨hv, ?_, ?_, ?_⟩
  · rw [hv, Vinf_eq, RawVel3ddl_zero]
    simp
  · rw [hv, Vsup_eq, RawVel3ddl_zero]
    simp
  · rw [hv, RawVel3ddl_zero]
    simp

theorem denominators_ne_zero_of_pos (vmax raw : Fin 3 → K) (i : Fin 3) (hm : 0 < vmax i) :
    |raw i| + 1 / 100000 ≠ 0 ∧
      (Vinf vmax i ≤ |raw i| ∧ |raw i| ≤ Vsup vmax i → 2 * dv vmax i * |raw i| ≠ 0) := by
  constructor
  · have : (0 : K) < |raw i| + 1 / 100000 := by positivity
    exact this.ne'
  · intro hb
    have hinf : 0 < Vinf vmax i := by rw [Vinf_eq]; positivity
    have ha : 0 < |raw i| := lt_of_lt_of_le hinf hb.1
    have hdv : 0 < dv vmax i := by unfold dv; positivity
    have : 0 < 2 * dv vmax i * |raw i| := by positivity
    exact this.ne'

/-- C17: two twists that agree on the components 0, 1 and 5 give the same
result, for every limit vector; the result is `RawVel3ddl = (v[0], v[1],
v[5])` times the final `fac`, and `fac` is computed by the loop body run for
the axes 0, 1, 2 in this order, axis `i` pairing `vmax_[i]` with
`RawVel3ddl[i]`. -/
theorem velocitySaturation_reads_components_0_1_5 (vmax : Fin 3 → K) (v w : Fin 6 → K)
    (h0 : v 0 = w 0) (h1 : v 1 = w 1) (h5 : v 5 = w 5) :
    velocitySaturation vmax v = velocitySaturation vmax w ∧
      RawVel3ddl v = ![v 0, v 1, v 5] ∧
      (∀ i, velocitySaturation vmax v i = RawVel3ddl v i * satFac vmax (RawVel3ddl v)) ∧
      satFac vmax (RawVel3ddl v) =
        satStep vmax ![v 0, v 1, v 5]
          (satStep vmax ![v 0, v 1, v 5] (satStep vmax ![v 0, v 1, v 5] 1 0) 1) 2 := by
  have hraw : RawVel3ddl v = RawVel3ddl w := by
    unfold RawVel3ddl
    rw [h0, h1, h5]
  refine ⟨?_, rfl, fun i => rfl, rfl⟩
  funext i
  simp only [velocitySaturation, hraw]

/-- C17, at a concrete input: two twists that differ in the components 2, 3
and 4 only. -/
theorem velocitySaturation_reads_components_0_1_5_witness :
    (![1, 2, 3, 4, 5, 6] : Fin 6 → ℚ) 0 = (![1, 2, -8, 0, 9, 6] : Fin 6 → ℚ) 0 ∧
      (![1, 2, 3, 4, 5, 6] : Fin 6 → ℚ) 1 = (![1, 2, -8, 0, 9, 6] : Fin 6 → ℚ) 1 ∧
      (![1, 2, 3, 4, 5, 6] : Fin 6 → ℚ) 5 = (![1, 2, -8, 0, 9, 6] : Fin 6 → ℚ) 5 ∧
      velocitySaturation (![1, 1, 1] : Fin 3 → ℚ) ![1, 2, 3, 4, 5, 6] =
        velocitySaturation (![1, 1, 1] : Fin 3 → ℚ) ![1, 2, -8, 0, 9, 6] :=
  ⟨rfl, rfl, rfl,
   (velocitySaturation_reads_components_0_1_5 (![1, 1, 1] : Fin 3 → ℚ)
      ![1, 2, 3, 4, 5, 6] ![1, 2, -8, 0, 9, 6] rfl rfl rfl).1⟩

end SwayMotionCorrection

/-! ## The saturation: monotonicity on one axis -/

namespace SwayMotionCorrection

variable {K : Type} [LinearOrderedField K]

theorem scaled_band_eq (vmax : Fin 3 → K) (i : Fin 3) (a : K) (hm : 0 < vmax i) :
    a * newfac vmax i (max (Vinf vmax i) (min a (Vsup vmax i))) =
      if a < Vinf vmax i then a
      else if a ≤ Vsup vmax i then a / 2 + 19 / 40 * vmax i
      else 20 / 21 * a := by
  have hm0 : vmax i ≠ 0 := hm.ne'
  have hinfpos : 0 < Vinf vmax i := by rw [Vinf_eq]; positivity
  have hsuppos : 0 < Vsup vmax i := by rw [Vsup_eq]; positivity
  have hle : Vinf vmax i ≤ Vsup vmax i := by rw [Vinf_eq, Vsup_eq]; linarith
  split_ifs with h1 h2
  · have hclamp : max (Vinf vmax i) (min a (Vsup vmax i)) = Vinf vmax i := by
      rw [min_eq_left (h1.le.trans hle), max_eq_left h1.le]
    have hone : (20 * (19 / 20 * vmax i) + 19 * vmax i) / (40 * (19 / 20 * vmax i)) = 1 := by
      field_simp
      ring
    rw [hclamp, newfac_eq vmax i _ hm0 hinfpos.ne', Vinf_eq, hone, mul_one]
  · have hge : Vinf vmax i ≤ a := not_lt.mp h1
    have ha : 0 < a := lt_of_lt_of_le hinfpos hge
    have hclamp : max (Vinf vmax i) (min a (Vsup vmax i)) = a := by
      rw [min_eq_left h2, max_eq_right hge]
    rw [hclamp, newfac_eq vmax i _ hm0 ha.ne']
    field_simp
    ring
  · have hgt : Vsup vmax i < a := not_le.mp h2
    have hclamp : max (Vinf vmax i) (min a (Vsup vmax i)) = Vsup vmax i := by
      rw [min_eq_right hgt.le, max_eq_right hle]
    have hval : (20 * (21 / 20 * vmax i) + 19 * vmax i) / (40 * (21 / 20 * vmax i))
        = 20 / 21 := by
      field_simp
      ring
    rw [hclamp, newfac_eq vmax i _ hm0 hsuppos.ne', Vsup_eq, hval, mul_comm]

theorem scaled_band_mono (vmax : Fin 3 → K) (i : Fin 3) (a b : K) (hm : 0 < vmax i)
    (hab : a ≤ b) :
    a * newfac vmax i (max (Vinf vmax i) (min a (Vsup vmax i))) ≤
      b * newfac vmax i (max (Vinf vmax i) (min b (Vsup vmax i))) := by
  rw [scaled_band_eq vmax i a hm, scaled_band_eq vmax i b hm]
  have hinf := Vinf_eq vmax i
  have hsup := Vsup_eq vmax i
  split_ifs with h1 h2 h3 h4 h5 h6 h7 h8 <;> linarith

theorem scaled_hard_mono (m a b : K) (hm : 0 ≤ m) (ha : 0 ≤ a) (hab : a ≤ b) :
    a * (m / (a + 1 / 100000)) ≤ b * (m / (b + 1 / 100000)) := by
  have hda : (0 : K) < a + 1 / 100000 := by positivity
  have hdb : (0 : K) < b + 1 / 100000 := by linarith
  have h : a / (a + 1 / 100000) ≤ b / (b + 1 / 100000) := by
    rw [div_le_div_iff₀ hda hdb]
    nlinarith
  calc a * (m / (a + 1 / 100000)) = m * (a / (a + 1 / 100000)) := by ring
    _ ≤ m * (b / (b + 1 / 100000)) := mul_le_mul_of_nonneg_left h hm
    _ = b * (m / (b + 1 / 100000)) := by ring

theorem scaled_axis_mono (vmax : Fin 3 → K) (i : Fin 3) (x y : K) (hm : 0 < vmax i)
    (hxy : |x| ≤ |y|) :
    |x| * min (vmax i / (|x| + 1 / 100000))
        (newfac vmax i (max (Vinf vmax i) (min |x| (Vsup vmax i)))) ≤
      |y| * min (vmax i / (|y| + 1 / 100000))
        (newfac vmax i (max (Vinf vmax i) (min |y| (Vsup vmax i)))) := by
  rw [mul_min_of_nonneg _ _ (abs_nonneg x), mul_min_of_nonneg _ _ (abs_nonneg y)]
  exact min_le_min (scaled_hard_mono (vmax i) |x| |y| hm.le (abs_nonneg x) hxy)
    (scaled_band_mono vmax i |x| |y| hm hxy)

theorem scaled_const_mono (a b c : K) (hab : a ≤ b) (hc : 0 < c) : a * c ≤ b * c :=
  mul_le_mul_of_nonneg_right hab hc.le

theorem scaled_min_mono (a b x1 x2 y1 y2 z1 z2 : K) (ha : 0 ≤ a) (hab : a ≤ b)
    (hx : a * x1 ≤ b * x2) (hy : a * y1 ≤ b * y2) (hz : a * z1 ≤ b * z2) :
    a * min (min (min 1 x1) y1) z1 ≤ b * min (min (min 1 x2) y2) z2 := by
  have hb : 0 ≤ b := ha.trans hab
  rw [mul_min_of_nonneg _ _ ha, mul_min_of_nonneg _ _ ha, mul_min_of_nonneg _ _ ha,
    mul_min_of_nonneg _ _ hb, mul_min_of_nonneg _ _ hb, mul_min_of_nonneg _ _ hb,
    mul_one, mul_one]
  exact min_le_min (min_le_min (min_le_min hab hx) hy) hz

/-- C19, amended: in exact arithmetic, for limits that are strictly positive on
the three axes and for every axis `i`, among the inputs whose two other
components of `RawVel3ddl` are zero, the absolute value of component `i` of the
result of `velocitySaturation` is a non-decreasing function of the absolute
value of component `i` of the input. -/
theorem velocitySaturation_single_axis_monotone (vmax : Fin 3 → K) (hpos : ∀ i, 0 < vmax i)
    (i : Fin 3) (v w : Fin 6 → K)
    (hv : ∀ j, j ≠ i → RawVel3ddl v j = 0)
    (hw : ∀ j, j ≠ i → RawVel3ddl w j = 0)
    (hle : |RawVel3ddl v i| ≤ |RawVel3ddl w i|) :
    |velocitySaturation vmax v i| ≤ |velocitySaturation vmax w i| := by
  have hFv := satFac_nonneg vmax (RawVel3ddl v) (fun j => (hpos j).le)
  have hFw := satFac_nonneg vmax (RawVel3ddl w) (fun j => (hpos j).le)
  unfold velocitySaturation
  rw [abs_mul, abs_mul, abs_of_nonneg hFv, abs_of_nonneg hFw,
    satFac_closed vmax _ hpos, satFac_closed vmax _ hpos]
  have key : ∀ j : Fin 3,
      |RawVel3ddl v i| * min (vmax j / (|RawVel3ddl v j| + 1 / 100000))
          (newfac vmax j (max (Vinf vmax j) (min |RawVel3ddl v j| (Vsup vmax j)))) ≤
        |RawVel3ddl w i| * min (vmax j / (|RawVel3ddl w j| + 1 / 100000))
          (newfac vmax j (max (Vinf vmax j) (min |RawVel3ddl w j| (Vsup vmax j)))) := by
    intro j
    by_cases hj : j = i
    · subst hj
      exact scaled_axis_mono vmax j _ _ (hpos j) hle
    · rw [hv j hj, hw j hj]
      exact scaled_const_mono _ _ _ hle (axisFac_pos vmax j 0 (hpos j))
  exact scaled_min_mono _ _ _ _ _ _ _ _ (abs_nonneg _) hle (key 0) (key 1) (key 2)

/-- C19, amended, at a concrete input: limits `(1, 1, 1)`, axis 0, the inputs
`(1, 0, 7, 7, 7, 0)` and `(-2, 0, 0, 0, 0, 0)`. -/
theorem velocitySaturation_single_axis_monotone_witness :
    (∀ i, 0 < (![1, 1, 1] : Fin 3 → ℚ) i) ∧
      (∀ j, j ≠ (0 : Fin 3) → RawVel3ddl (![1, 0, 7, 7, 7, 0] : Fin 6 → ℚ) j = 0) ∧
      (∀ j, j ≠ (0 : Fin 3) → RawVel3ddl (![-2, 0, 0, 0, 0, 0] : Fin 6 → ℚ) j = 0) ∧
      |RawVel3ddl (![1, 0, 7, 7, 7, 0] : Fin 6 → ℚ) 0|
        ≤ |RawVel3ddl (![-2, 0, 0, 0, 0, 0] : Fin 6 → ℚ) 0| ∧
      |velocitySaturation (![1, 1, 1] : Fin 3 → ℚ) ![1, 0, 7, 7, 7, 0] 0|
        ≤ |velocitySaturation (![1, 1, 1] : Fin 3 → ℚ) ![-2, 0, 0, 0, 0, 0] 0| :=
  have hp : ∀ i, 0 < (![1, 1, 1] : Fin 3 → ℚ) i := by
    intro i
    fin_cases i <;> simp
  have hv : ∀ j, j ≠ (0 : Fin 3) → RawVel3ddl (![1, 0, 7, 7, 7, 0] : Fin 6 → ℚ) j = 0 := by
    intro j hj
    fin_cases j
    · exact absurd rfl hj
    · rfl
    · rfl
  have hw : ∀ j, j ≠ (0 : Fin 3) → RawVel3ddl (![-2, 0, 0, 0, 0, 0] : Fin 6 → ℚ) j = 0 := by
    intro j hj
    fin_cases j
    · exact absurd rfl hj
    · rfl
    · rfl
  have hle : |RawVel3ddl (![1, 0, 7, 7, 7, 0] : Fin 6 → ℚ) 0|
      ≤ |RawVel3ddl (![-2, 0, 0, 0, 0, 0] : Fin 6 → ℚ) 0| := by
    rw [RawVel3ddl_zero, RawVel3ddl_zero]
    norm_num [abs_of_pos, abs_of_neg]
  ⟨hp, hv, hw, hle,
   velocitySaturation_single_axis_monotone (![1, 1, 1] : Fin 3 → ℚ) hp 0
     ![1, 0, 7, 7, 7, 0] ![-2, 0, 0, 0, 0, 0] hv hw hle⟩

end SwayMotionCorrection
